import Mathlib

/-!
Verification of the ziggy-python decoder (`src/ziggy/parser.py`).

Python strings are modelled as `List Char`, Python `int` as `ℤ`/`ℕ`, and
Python `float` as exact rational arithmetic over `ℚ` (the decoder only
performs additions, multiplications and powers of ten on decoded digit
values, so the exact-rational semantics is the intended value of every
lexeme; IEEE-754 rounding of the Python runtime is abstracted away).
Fallible Python code (exceptions) is modelled with `Option`/`Except`.
-/

namespace ZiggyPy

/-! ## Characters and digits -/

/-- The value of a character as a digit, as Python's `int(_, base)` accepts
them for bases up to 16: `0`-`9`, `a`-`f` and `A`-`F`. -/
def hexVal (c : Char) : Option Nat :=
  if '0' ≤ c ∧ c ≤ '9' then some (c.toNat - '0'.toNat)
  else if 'a' ≤ c ∧ c ≤ 'f' then some (c.toNat - 'a'.toNat + 10)
  else if 'A' ≤ c ∧ c ≤ 'F' then some (c.toNat - 'A'.toNat + 10)
  else none

/-- `c` is a valid digit in base `b` (for `b ≤ 16`), as Python accepts it. -/
def isBaseDigit (b : Nat) (c : Char) : Bool :=
  match hexVal c with
  | some v => v < b
  | none => false

/-- Fold a digit string into its value in base `b`, most significant first. -/
def foldDigits (b : Nat) (acc : Nat) (l : List Char) : Nat :=
  l.foldl (fun a c => a * b + ((hexVal c).getD 0)) acc

/-! ## Models of the Python `str` operations used by the decoder.
All of them treat a string as its list of characters. -/

/-- Python `s.lstrip(ch)` for a one-character set: drop every leading `ch`. -/
def pyLstrip (ch : Char) (l : List Char) : List Char :=
  l.dropWhile (· == ch)

/-- Python `s.rstrip(ch)` for a one-character set: drop every trailing `ch`. -/
def pyRstrip (ch : Char) (l : List Char) : List Char :=
  (l.reverse.dropWhile (· == ch)).reverse

/-- Python `s.strip(ch)` for a one-character set: drop every leading and
trailing `ch`. -/
def pyStrip (ch : Char) (l : List Char) : List Char :=
  pyRstrip ch (pyLstrip ch l)

/-- Python `s.split(sep)` for a one-character separator. -/
def pySplit (sep : Char) : List Char → List (List Char)
  | [] => [[]]
  | c :: rest =>
    if c = sep then [] :: pySplit sep rest
    else
      match pySplit sep rest with
      | [] => [[c]]
      | g :: gs => (c :: g) :: gs

/-- Does the list start with the two characters `a`, `b`
(Python `s.startswith(ab)` for a two-character prefix)? -/
def startsWith2 (a b : Char) : List Char → Bool
  | x :: y :: _ => x = a ∧ y = b
  | _ => false

/-- Python `"j".join(lines)` for a one-character joiner. -/
def joinWith (j : Char) : List (List Char) → List Char
  | [] => []
  | [g] => g
  | g :: gs => g ++ j :: joinWith j gs

/-! ## Model of Python `int(s, base)`

Restricted to the lexeme alphabet the decoder meets: no surrounding
whitespace (the grammar's number lexemes carry none). Underscore
separators are accepted exactly where Python accepts them: between two
digits, or a single one right after a base prefix. -/

/-- Digits in base `b` with `_` separators allowed between two digits,
accumulating into `acc`; rejects trailing, doubled or misplaced `_`. -/
def digitsCore (b : Nat) (acc : Nat) : List Char → Option Nat
  | [] => some acc
  | c :: rest =>
    if c = '_' then
      match rest with
      | [] => none
      | d :: rest' =>
        match hexVal d with
        | some v => if v < b then digitsCore b (acc * b + v) rest' else none
        | none => none
    else
      match hexVal c with
      | some v => if v < b then digitsCore b (acc * b + v) rest else none
      | none => none

/-- A nonempty digit string in base `b` (first character must be a digit). -/
def pyDigits (b : Nat) (l : List Char) : Option Nat :=
  match l with
  | [] => none
  | c :: rest =>
    match hexVal c with
    | some v => if v < b then digitsCore b v rest else none
    | none => none

/-- After a recognized base prefix Python allows one optional `_`. -/
def pyAfterPrefix (b : Nat) (l : List Char) : Option Nat :=
  match l with
  | c :: rest => if c = '_' then pyDigits b rest else pyDigits b (c :: rest)
  | [] => pyDigits b []

/-- Does the two-character prefix `c0 c1` announce base `b`
(`0x`/`0X` for 16, `0o`/`0O` for 8, `0b`/`0B` for 2)? -/
def isBasePrefix (b : Nat) (c0 c1 : Char) : Prop :=
  c0 = '0' ∧ (b = 16 ∧ (c1 = 'x' ∨ c1 = 'X') ∨
              b = 8 ∧ (c1 = 'o' ∨ c1 = 'O') ∨
              b = 2 ∧ (c1 = 'b' ∨ c1 = 'B'))

instance (b : Nat) (c0 c1 : Char) : Decidable (isBasePrefix b c0 c1) := by
  unfold isBasePrefix; infer_instance

/-- Sign-less part of `int(s, base)`: an optional matching base prefix
(`0x`/`0X`, `0o`/`0O`, `0b`/`0B`), then digits. -/
def pyIntCore (b : Nat) (l : List Char) : Option Nat :=
  match l with
  | c0 :: c1 :: rest =>
    if isBasePrefix b c0 c1 then pyAfterPrefix b rest else pyDigits b l
  | _ => pyDigits b l

/-- Python `int(s, base)` on whitespace-free input: optional sign, optional
matching base prefix, digits with `_` separators. `none` models the
`ValueError` Python raises on malformed input. -/
def pyInt (b : Nat) (l : List Char) : Option Int :=
  match l with
  | [] => none
  | c :: rest =>
    if c = '-' then (pyIntCore b rest).map (fun n => -(n : Int))
    else if c = '+' then (pyIntCore b rest).map (fun n => (n : Int))
    else (pyIntCore b (c :: rest)).map (fun n => (n : Int))

/-! ## Model of Python `float(s)` on finite decimal lexemes

Covers signs, digits with `_` separators, an optional fractional part and
an optional `e` exponent — the decimal float lexemes the grammar
produces (`inf`/`nan` and surrounding whitespace are not in the lexeme
set). The value is the exact rational the literal denotes. -/

/-- Fractional digit string with `_` separators: value and digit count. -/
def fracDigitsCore : List Char → Nat → Nat → Option (Nat × Nat)
  | [], acc, k => some (acc, k)
  | c :: rest, acc, k =>
    if c = '_' then
      match rest with
      | [] => none
      | d :: rest' =>
        match hexVal d with
        | some v => if v < 10 then fracDigitsCore rest' (acc * 10 + v) (k + 1) else none
        | none => none
    else
      match hexVal c with
      | some v => if v < 10 then fracDigitsCore rest (acc * 10 + v) (k + 1) else none
      | none => none

/-- A nonempty decimal fraction digit string: value and digit count. -/
def fracDigits (l : List Char) : Option (Nat × Nat) :=
  match l with
  | [] => none
  | c :: rest =>
    match hexVal c with
    | some v => if v < 10 then fracDigitsCore rest v 1 else none
    | none => none

/-- Mantissa of a decimal float: digits, `i.f`, `i.` or `.f`. -/
def pyFloatMantissa (l : List Char) : Option ℚ :=
  match pySplit '.' l with
  | [i] => (pyDigits 10 i).map (fun n => (n : ℚ))
  | [i, f] =>
    if i = [] ∧ f = [] then none
    else
      match (if i = [] then some 0 else pyDigits 10 i),
            (if f = [] then some (0, 0) else fracDigits f) with
      | some iv, some (fv, k) => some ((iv : ℚ) + (fv : ℚ) / 10 ^ k)
      | _, _ => none
  | _ => none

/-- Sign-less decimal float: mantissa and optional `e` exponent. -/
def pyFloatCore (l : List Char) : Option ℚ :=
  match pySplit 'e' l with
  | [m] => pyFloatMantissa m
  | [m, e] =>
    match pyFloatMantissa m, pyInt 10 e with
    | some mv, some ev => some (mv * (10 : ℚ) ^ ev)
    | _, _ => none
  | _ => none

/-- Python `float(s)` on a finite decimal lexeme. -/
def pyFloat (l : List Char) : Option ℚ :=
  match l with
  | '-' :: rest => (pyFloatCore rest).map Neg.neg
  | '+' :: rest => pyFloatCore rest
  | _ => pyFloatCore l

/-! ## The numeric literal decoders (`interpret_integer`, `interpret_float`) -/

/-- Embedding of `interpret_integer` from `parser.py`: pick the base from a
two-character prefix, strip the prefix when there is one, and convert with
Python `int(s, base)`. -/
def interpret_integer (s : List Char) : Option Int :=
  let base : Nat :=
    if startsWith2 '0' 'x' s then 16
    else if startsWith2 '0' 'o' s then 8
    else if startsWith2 '0' 'b' s then 2
    else 10
  let s' := if base ≠ 10 then s.drop 2 else s
  pyInt base s'

/-- `round(math.log10 n)` computed exactly for `n ≥ 1`: the unique `m` with
`10 ^ (2*m - 1) ≤ n^2 < 10 ^ (2*m + 1)` (half-integer values of `log10 n`
cannot occur at integer arguments). Fuel-based base-10 logarithm below. -/
def nlog10Aux : Nat → Nat → Nat
  | 0, _ => 0
  | fuel + 1, n => if n < 10 then 0 else nlog10Aux fuel (n / 10) + 1

/-- `⌊log10 n⌋` for `n ≥ 1` (and `0` at `0`). -/
def nlog10 (n : Nat) : Nat := nlog10Aux n n

/-- `round(math.log10 n)` for `n ≥ 1`. -/
def roundLog10 (n : Nat) : Nat := (nlog10 (n * n) + 1) / 2

/-- Lines 256-261 of the source: if the prefix-stripped mantissa `x0`
mentions `p`, split the *whole* lexeme `s` on `p` (the code splits `s`, not
`x0`, so the `0x` prefix stays on the mantissa) and read the decimal
exponent; otherwise the mantissa is `s` itself and the exponent `0`.
Python's 2-name unpacking of the split fails unless there are exactly two
parts. -/
def hexPExp (s x0 : List Char) : Option (List Char × Int) :=
  if x0.contains 'p' then
    match pySplit 'p' s with
    | [a, e] => (pyInt 10 e).map (fun ev => (a, ev))
    | _ => none
  else some (s, 0)

/-- Lines 263-268 of the source: split the mantissa on `.` and decode both
sides as base-16 integers (`int(_, 16)` accepts the leftover `0x` prefix);
without a dot the whole mantissa is the integer part and `idec = 0`. -/
def hexBaseFrac (x : List Char) : Option (Int × Int) :=
  if x.contains '.' then
    match pySplit '.' x with
    | [b, d] =>
      match pyInt 16 b, pyInt 16 d with
      | some bv, some dv => some (bv, dv)
      | _, _ => none
    | _ => none
  else (pyInt 16 x).map (fun bv => (bv, 0))

/-- Lines 270-274 of the source: the fractional contribution. A zero
fractional integer contributes `0`; otherwise `idec` is scaled by
`10 ** -(round(log10 idec) + 1)`. -/
def hexDec (idec : Int) : ℚ :=
  if idec = 0 then 0
  else (idec : ℚ) * (10 : ℚ) ^ (-(((roundLog10 idec.toNat) + 1 : Nat) : Int))

/-- Embedding of `interpret_float` from `parser.py`.

Mirrors the source line by line: lowercase, strip `_` at both ends, decimal
floats go to Python `float`; hexadecimal floats are taken apart by
`hexPExp`/`hexBaseFrac` and reassembled as `(base + dec) * 10 ** exp`. -/
def interpret_float (s0 : List Char) : Option ℚ :=
  let s := pyStrip '_' (s0.map Char.toLower)
  if ¬ startsWith2 '0' 'x' s then pyFloat s
  else
    match hexPExp s (s.drop 2) with
    | none => none
    | some (x, exp) =>
      match hexBaseFrac x with
      | none => none
      | some (base, idec) =>
        some (((base : ℚ) + hexDec idec) * (10 : ℚ) ^ exp)

/-! ## Character-level lemmas -/

theorem char_le_iff_toNat {a b : Char} : a ≤ b ↔ a.toNat ≤ b.toNat := by
  rw [Char.le_def, Char.toNat, Char.toNat, UInt32.le_def, BitVec.le_def]
  rfl

theorem toNat_ofNat_valid {n : Nat} (h : n < 0xd800) : (Char.ofNat n).toNat = n := by
  have hv : Char.isValidCharNat n := Or.inl h
  rw [Char.ofNat, dif_pos hv]
  simp [Char.ofNatAux, Char.toNat, UInt32.toNat, UInt32.ofNat', BitVec.toNat_ofNatLt]

/-- A character with a digit value is not equal to any character without one. -/
theorem ne_of_hexVal_some {c d : Char} {v : Nat} (h : hexVal c = some v)
    (hd : hexVal d = none) : c ≠ d := by
  intro e; rw [e, hd] at h; cases h

/-- A digit valid in base `b` differs from any digit whose value is too big. -/
theorem ne_of_baseDigit_lt {b : Nat} {c d : Char} {v w : Nat} (h : hexVal c = some v)
    (hv : v < b) (hd : hexVal d = some w) (hw : ¬ w < b) : c ≠ d := by
  intro e; rw [e, hd] at h
  cases h; exact hw hv

theorem isBaseDigit_iff {b : Nat} {c : Char} :
    isBaseDigit b c = true ↔ ∃ v, hexVal c = some v ∧ v < b := by
  unfold isBaseDigit
  cases h : hexVal c <;> simp

/-- Python `lower()` does not change a digit's value. -/
theorem hexVal_toLower {c : Char} {v : Nat} (h : hexVal c = some v) :
    hexVal (Char.toLower c) = some v := by
  unfold hexVal at h
  split_ifs at h with h1 h2 h3
  · have hb1 : (48 : Nat) ≤ c.toNat := char_le_iff_toNat.1 h1.1
    have hb2 : c.toNat ≤ 57 := char_le_iff_toNat.1 h1.2
    have : Char.toLower c = c := by
      rw [Char.toLower, if_neg]; omega
    rw [this]; unfold hexVal; rw [if_pos h1]; exact h
  · have hb1 : (97 : Nat) ≤ c.toNat := char_le_iff_toNat.1 h2.1
    have hb2 : c.toNat ≤ 102 := char_le_iff_toNat.1 h2.2
    have : Char.toLower c = c := by
      rw [Char.toLower, if_neg]; omega
    rw [this]; unfold hexVal; rw [if_neg h1, if_pos h2]; exact h
  · have hb1 : (65 : Nat) ≤ c.toNat := char_le_iff_toNat.1 h3.1
    have hb2 : c.toNat ≤ 70 := char_le_iff_toNat.1 h3.2
    have hlow : Char.toLower c = Char.ofNat (c.toNat + 32) := by
      rw [Char.toLower, if_pos]; omega
    have htn : (Char.ofNat (c.toNat + 32)).toNat = c.toNat + 32 :=
      toNat_ofNat_valid (by omega)
    rw [hlow]; unfold hexVal
    rw [if_neg, if_pos, htn]
    · cases h
      simp only [Option.some.injEq]
      have e1 : 'a'.toNat = 97 := rfl
      have e2 : 'A'.toNat = 65 := rfl
      rw [e1, e2]
      omega
    · constructor <;> rw [char_le_iff_toNat, htn] <;> [skip; skip] <;>
        first
          | (show (97 : Nat) ≤ c.toNat + 32; omega)
          | (show c.toNat + 32 ≤ 102; omega)
    · intro hc
      have := char_le_iff_toNat.1 hc.2
      rw [htn] at this
      revert this
      show ¬ c.toNat + 32 ≤ 57
      omega

/-- `lower()` keeps base-`b` digit-ness. -/
theorem isBaseDigit_toLower {b : Nat} {c : Char} (h : isBaseDigit b c = true) :
    isBaseDigit (b := b) (Char.toLower c) = true := by
  obtain ⟨v, hv, hvb⟩ := isBaseDigit_iff.1 h
  exact isBaseDigit_iff.2 ⟨v, hexVal_toLower hv, hvb⟩

/-- A decimal digit is unchanged by `lower()`. -/
theorem toLower_decimal_digit {c : Char} {v : Nat} (h : hexVal c = some v)
    (hv : v < 10) : Char.toLower c = c := by
  unfold hexVal at h
  split_ifs at h with h1 h2 h3
  · have hb1 : (48 : Nat) ≤ c.toNat := char_le_iff_toNat.1 h1.1
    have hb2 : c.toNat ≤ 57 := char_le_iff_toNat.1 h1.2
    rw [Char.toLower, if_neg]; omega
  · cases h
    have hb1 : (97 : Nat) ≤ c.toNat := char_le_iff_toNat.1 h2.1
    omega
  · cases h
    have hb1 : (65 : Nat) ≤ c.toNat := char_le_iff_toNat.1 h3.1
    have hb2 : c.toNat ≤ 70 := char_le_iff_toNat.1 h3.2
    omega

/-! ## Digit-string lemmas -/

theorem hexVal_underscore : hexVal '_' = none := by decide
theorem hexVal_dot : hexVal '.' = none := by decide
theorem hexVal_p : hexVal 'p' = none := by decide
theorem hexVal_x : hexVal 'x' = none := by decide
theorem hexVal_ux : hexVal 'X' = none := by decide
theorem hexVal_oo : hexVal 'o' = none := by decide
theorem hexVal_uo : hexVal 'O' = none := by decide
theorem hexVal_minus : hexVal '-' = none := by decide
theorem hexVal_plus : hexVal '+' = none := by decide
theorem hexVal_lb : hexVal 'b' = some 11 := by decide
theorem hexVal_ub : hexVal 'B' = some 11 := by decide

/-- One digit step of `digitsCore`. -/
theorem digitsCore_cons_digit (b acc : Nat) (c : Char) (rest : List Char) (v : Nat)
    (hv : hexVal c = some v) (hvb : v < b) :
    digitsCore b acc (c :: rest) = digitsCore b (acc * b + v) rest := by
  have hu : c ≠ '_' := ne_of_hexVal_some hv hexVal_underscore
  rw [digitsCore.eq_def]
  dsimp only
  rw [if_neg hu, hv]
  dsimp only
  rw [if_pos hvb]

/-- One separator-then-digit step of `digitsCore`. -/
theorem digitsCore_sep_digit (b acc : Nat) (d : Char) (rest' : List Char) (v : Nat)
    (hv : hexVal d = some v) (hvb : v < b) :
    digitsCore b acc ('_' :: d :: rest') = digitsCore b (acc * b + v) rest' := by
  rw [digitsCore.eq_def]
  dsimp only
  rw [hv]
  dsimp only
  rw [if_pos hvb, if_pos rfl]

/-- One digit step of `foldDigits`. -/
theorem foldDigits_cons (b acc : Nat) (c : Char) (g : List Char) (v : Nat)
    (hv : hexVal c = some v) :
    foldDigits b acc (c :: g) = foldDigits b (acc * b + v) g := by
  simp [foldDigits, hv]

/-- Digits of base `b` consume through `digitsCore` by folding. -/
theorem digitsCore_digits {b : Nat} (g : List Char) (t : List Char) (acc : Nat)
    (hg : ∀ c ∈ g, isBaseDigit b c = true) :
    digitsCore b acc (g ++ t) = digitsCore b (foldDigits b acc g) t := by
  induction g generalizing acc with
  | nil => rfl
  | cons c g' ih =>
    obtain ⟨v, hv, hvb⟩ := isBaseDigit_iff.1 (hg c (by simp))
    rw [List.cons_append, digitsCore_cons_digit b acc c _ v hv hvb,
      foldDigits_cons b acc c g' v hv]
    exact ih _ (fun d hd => hg d (by simp [hd]))

/-- The separator-joined rendering of nonempty digit groups, prefixed by a
separator, consumes through `digitsCore`. -/
def sepJoin (gs : List (List Char)) : List Char :=
  match gs with
  | [] => []
  | g :: gs => '_' :: (g ++ sepJoin gs)

theorem joinWith_eq_sepJoin (g : List Char) (gs : List (List Char)) :
    joinWith '_' (g :: gs) = g ++ sepJoin gs := by
  induction gs generalizing g with
  | nil => simp [joinWith, sepJoin]
  | cons g' gs' ih =>
    show g ++ '_' :: joinWith '_' (g' :: gs') = _
    rw [ih g']
    simp [sepJoin]

theorem digitsCore_sepJoin {b : Nat} (gs : List (List Char)) (acc : Nat)
    (hg : ∀ g ∈ gs, g ≠ [] ∧ ∀ c ∈ g, isBaseDigit b c = true) :
    digitsCore b acc (sepJoin gs) = some (foldDigits b acc gs.flatten) := by
  induction gs generalizing acc with
  | nil => rfl
  | cons g gs' ih =>
    obtain ⟨hne, hdig⟩ := hg g (by simp)
    obtain ⟨c, g0, rfl⟩ : ∃ c g0, g = c :: g0 := by
      cases g with
      | nil => exact absurd rfl hne
      | cons c g0 => exact ⟨c, g0, rfl⟩
    obtain ⟨v, hv, hvb⟩ := isBaseDigit_iff.1 (hdig c (by simp))
    show digitsCore b acc ('_' :: (c :: g0 ++ sepJoin gs')) = _
    rw [List.cons_append, digitsCore_sep_digit b acc c _ v hv hvb,
      digitsCore_digits g0 _ _ (fun d hd => hdig d (by simp [hd])),
      ih _ (fun g hgm => hg g (by simp [hgm]))]
    rw [List.flatten_cons, show foldDigits b acc ((c :: g0) ++ gs'.flatten)
        = foldDigits b (foldDigits b acc (c :: g0)) gs'.flatten from List.foldl_append ..,
      foldDigits_cons b acc c g0 v hv]

theorem pyDigits_cons_digit {b : Nat} (c : Char) (g0 : List Char) (v : Nat)
    (hv : hexVal c = some v) (hvb : v < b) :
    pyDigits b (c :: g0) = digitsCore b v g0 := by
  rw [pyDigits.eq_def]
  dsimp only
  rw [hv]
  dsimp only
  rw [if_pos hvb]

theorem pyDigits_digits {b : Nat} (g : List Char) (hne : g ≠ [])
    (hg : ∀ c ∈ g, isBaseDigit b c = true) :
    pyDigits b g = some (foldDigits b 0 g) := by
  cases g with
  | nil => exact absurd rfl hne
  | cons c g0 =>
    obtain ⟨v, hv, hvb⟩ := isBaseDigit_iff.1 (hg c (by simp))
    have hstep := digitsCore_digits (b := b) g0 [] v (fun d hd => hg d (by simp [hd]))
    rw [List.append_nil] at hstep
    rw [pyDigits_cons_digit c g0 v hv hvb, hstep, foldDigits_cons b 0 c g0 v hv,
      Nat.zero_mul, Nat.zero_add]
    rfl

theorem pyDigits_joinWith {b : Nat} (gs : List (List Char)) (hne : gs ≠ [])
    (hg : ∀ g ∈ gs, g ≠ [] ∧ ∀ c ∈ g, isBaseDigit b c = true) :
    pyDigits b (joinWith '_' gs) = some (foldDigits b 0 gs.flatten) := by
  obtain ⟨g, gs', rfl⟩ : ∃ g gs', gs = g :: gs' := by
    cases gs with
    | nil => exact absurd rfl hne
    | cons g gs' => exact ⟨g, gs', rfl⟩
  obtain ⟨hgne, hdig⟩ := hg g (by simp)
  obtain ⟨c, g0, rfl⟩ : ∃ c g0, g = c :: g0 := by
    cases g with
    | nil => exact absurd rfl hgne
    | cons c g0 => exact ⟨c, g0, rfl⟩
  obtain ⟨v, hv, hvb⟩ := isBaseDigit_iff.1 (hdig c (by simp))
  rw [joinWith_eq_sepJoin]
  show pyDigits b (c :: (g0 ++ sepJoin gs')) = _
  rw [pyDigits_cons_digit c _ v hv hvb,
    digitsCore_digits g0 _ _ (fun d hd => hdig d (by simp [hd])),
    digitsCore_sepJoin gs' _ (fun g hgm => hg g (by simp [hgm]))]
  rw [List.flatten_cons, show foldDigits b 0 ((c :: g0) ++ gs'.flatten)
      = foldDigits b (foldDigits b 0 (c :: g0)) gs'.flatten from List.foldl_append ..,
    foldDigits_cons b 0 c g0 v hv, Nat.zero_mul, Nat.zero_add]

/-- A never-matching prefix makes `pyIntCore` plain digit conversion. -/
theorem pyIntCore_eq_pyDigits {b : Nat} {l : List Char}
    (h : ∀ c0 c1 rest, l = c0 :: c1 :: rest → ¬ isBasePrefix b c0 c1) :
    pyIntCore b l = pyDigits b l := by
  match l with
  | [] => rfl
  | [c] => rfl
  | c0 :: c1 :: rest =>
    simp only [pyIntCore, if_neg (h c0 c1 rest rfl)]

/-- A second character that is a base-`b` digit or `_` rules out a prefix. -/
theorem not_isBasePrefix_of_snd {b : Nat} {c0 c1 : Char}
    (h : isBaseDigit b c1 = true ∨ c1 = '_') : ¬ isBasePrefix b c0 c1 := by
  rintro ⟨-, hb⟩
  rcases h with hd | rfl
  · obtain ⟨v, hv, hvb⟩ := isBaseDigit_iff.1 hd
    rcases hb with ⟨rfl, hx | hx⟩ | ⟨rfl, hx | hx⟩ | ⟨rfl, hx | hx⟩ <;> subst hx
    · rw [hexVal_x] at hv; cases hv
    · rw [hexVal_ux] at hv; cases hv
    · rw [hexVal_oo] at hv; cases hv
    · rw [hexVal_uo] at hv; cases hv
    · rw [hexVal_lb] at hv; cases hv; omega
    · rw [hexVal_ub] at hv; cases hv; omega
  · rcases hb with ⟨-, hx | hx⟩ | ⟨-, hx | hx⟩ | ⟨-, hx | hx⟩ <;> cases hx

/-- `pyInt` on an unsigned separator-grouped digit rendering. -/
theorem pyInt_joinWith {b : Nat} (gs : List (List Char)) (hne : gs ≠ [])
    (hg : ∀ g ∈ gs, g ≠ [] ∧ ∀ c ∈ g, isBaseDigit b c = true) :
    pyInt b (joinWith '_' gs) = some ((foldDigits b 0 gs.flatten : Nat) : Int) := by
  obtain ⟨g, gs', rfl⟩ : ∃ g gs', gs = g :: gs' := by
    cases gs with
    | nil => exact absurd rfl hne
    | cons g gs' => exact ⟨g, gs', rfl⟩
  obtain ⟨hgne, hdig⟩ := hg g (by simp)
  obtain ⟨c, g0, rfl⟩ : ∃ c g0, g = c :: g0 := by
    cases g with
    | nil => exact absurd rfl hgne
    | cons c g0 => exact ⟨c, g0, rfl⟩
  obtain ⟨v, hv, hvb⟩ := isBaseDigit_iff.1 (hdig c (by simp))
  have hjw : joinWith '_' ((c :: g0) :: gs') = c :: (g0 ++ sepJoin gs') := by
    rw [joinWith_eq_sepJoin]; rfl
  have hsnd : ∀ d0 d1 rest, c :: (g0 ++ sepJoin gs') = d0 :: d1 :: rest →
      ¬ isBasePrefix b d0 d1 := by
    intro d0 d1 rest he
    have h1 : g0 ++ sepJoin gs' = d1 :: rest := by injection he
    apply not_isBasePrefix_of_snd
    cases g0 with
    | cons d g0' =>
      have hd1 : d = d1 := by injection h1
      subst hd1
      exact Or.inl (hdig d (by simp))
    | nil =>
      cases gs' with
      | nil => simp [sepJoin] at h1
      | cons g' gs'' =>
        have hd1 : '_' = d1 := by
          rw [List.nil_append] at h1
          injection h1
        exact Or.inr hd1.symm
  rw [hjw]
  have hcm : c ≠ '-' := ne_of_hexVal_some hv hexVal_minus
  have hcp : c ≠ '+' := ne_of_hexVal_some hv hexVal_plus
  rw [pyInt.eq_def]
  dsimp only
  rw [if_neg hcm, if_neg hcp,
    pyIntCore_eq_pyDigits hsnd,
    show c :: (g0 ++ sepJoin gs') = joinWith '_' ((c :: g0) :: gs') from hjw.symm,
    pyDigits_joinWith _ (by simp) hg]
  rfl

/-- `pyInt` on an unsigned pure digit string. -/
theorem pyInt_digits {b : Nat} (g : List Char) (hne : g ≠ [])
    (hg : ∀ c ∈ g, isBaseDigit b c = true) :
    pyInt b g = some ((foldDigits b 0 g : Nat) : Int) := by
  have := pyInt_joinWith (b := b) [g] (by simp) (by simpa using ⟨hne, hg⟩)
  simpa [joinWith] using this

/-! ## Integer lexemes (claim C2) -/

/-- The base announced by an integer lexeme's two-character prefix. -/
inductive NumBase where
  | dec
  | bin
  | oct
  | hex

/-- The rendered prefix of an integer lexeme. -/
def basePrefix : NumBase → List Char
  | .dec => []
  | .hex => ['0', 'x']
  | .oct => ['0', 'o']
  | .bin => ['0', 'b']

/-- The numeric base selected by a prefix. -/
def baseVal : NumBase → Nat
  | .dec => 10
  | .hex => 16
  | .oct => 8
  | .bin => 2

theorem startsWith2_cons_cons (a b c0 c1 : Char) (t : List Char) :
    startsWith2 a b (c0 :: c1 :: t) = decide (c0 = a ∧ c1 = b) := rfl

theorem startsWith2_eq_false_of_snd {a b : Char} {l : List Char}
    (h : ∀ c0 c1 rest, l = c0 :: c1 :: rest → c1 ≠ b) :
    startsWith2 a b l = false := by
  match l with
  | [] => rfl
  | [c] => rfl
  | c0 :: c1 :: rest =>
    rw [startsWith2_cons_cons]
    apply decide_eq_false
    rintro ⟨-, h1⟩
    exact h c0 c1 rest rfl h1

/-- The second character of a separator-grouped digit rendering is a digit
or a separator. -/
theorem joinWith_snd {b : Nat} (gs : List (List Char))
    (hg : ∀ g ∈ gs, g ≠ [] ∧ ∀ c ∈ g, isBaseDigit b c = true) :
    ∀ c0 c1 rest, joinWith '_' gs = c0 :: c1 :: rest →
      isBaseDigit b c1 = true ∨ c1 = '_' := by
  intro c0 c1 rest he
  match gs with
  | [] => cases he
  | g :: gs' =>
    rw [joinWith_eq_sepJoin] at he
    obtain ⟨hne, hdig⟩ := hg g (by simp)
    obtain ⟨c, g0, rfl⟩ : ∃ c g0, g = c :: g0 := by
      cases g with
      | nil => exact absurd rfl hne
      | cons c g0 => exact ⟨c, g0, rfl⟩
    have h1 : g0 ++ sepJoin gs' = c1 :: rest := by
      rw [List.cons_append] at he
      injection he
    cases g0 with
    | cons d g0' =>
      have hd1 : d = c1 := by injection h1
      subst hd1
      exact Or.inl (hdig d (by simp))
    | nil =>
      cases gs' with
      | nil => simp [sepJoin] at h1
      | cons g' gs'' =>
        have hd1 : '_' = c1 := by
          rw [List.nil_append] at h1
          injection h1
        exact Or.inr hd1.symm

/-- The general decoding law for integer lexemes: pick the base from the
prefix, strip it and the separators, convert the digits. -/
theorem interpret_integer_decodes (nb : NumBase) (gs : List (List Char))
    (hne : gs ≠ [])
    (hg : ∀ g ∈ gs, g ≠ [] ∧ ∀ c ∈ g, isBaseDigit (baseVal nb) c = true) :
    interpret_integer (basePrefix nb ++ joinWith '_' gs)
      = some ((foldDigits (baseVal nb) 0 gs.flatten : Nat) : Int) := by
  have hsnd := joinWith_snd gs hg
  cases nb with
  | dec =>
    have hx : startsWith2 '0' 'x' (joinWith '_' gs) = false := by
      apply startsWith2_eq_false_of_snd
      intro c0 c1 rest he
      rcases hsnd c0 c1 rest he with hd | rfl
      · obtain ⟨v, hv, hvb⟩ := isBaseDigit_iff.1 hd
        exact ne_of_hexVal_some hv hexVal_x
      · decide
    have ho : startsWith2 '0' 'o' (joinWith '_' gs) = false := by
      apply startsWith2_eq_false_of_snd
      intro c0 c1 rest he
      rcases hsnd c0 c1 rest he with hd | rfl
      · obtain ⟨v, hv, hvb⟩ := isBaseDigit_iff.1 hd
        exact ne_of_hexVal_some hv hexVal_oo
      · decide
    have hb : startsWith2 '0' 'b' (joinWith '_' gs) = false := by
      apply startsWith2_eq_false_of_snd
      intro c0 c1 rest he
      rcases hsnd c0 c1 rest he with hd | rfl
      · obtain ⟨v, hv, hvb⟩ := isBaseDigit_iff.1 hd
        exact ne_of_baseDigit_lt hv hvb hexVal_lb (by decide)
      · decide
    show interpret_integer (joinWith '_' gs) = _
    rw [interpret_integer, hx, ho, hb]
    simp only [Bool.false_eq_true, if_false, ne_eq, not_true_eq_false, ite_false]
    exact pyInt_joinWith gs hne hg
  | hex =>
    show interpret_integer ('0' :: 'x' :: joinWith '_' gs) = _
    rw [interpret_integer]
    simp only [startsWith2_cons_cons, List.drop_succ_cons, List.drop_zero]
    rw [if_pos (by decide)]
    rw [if_pos (by decide)]
    exact pyInt_joinWith gs hne hg
  | oct =>
    show interpret_integer ('0' :: 'o' :: joinWith '_' gs) = _
    rw [interpret_integer]
    simp only [startsWith2_cons_cons, List.drop_succ_cons, List.drop_zero]
    rw [if_neg (by decide), if_pos (by decide)]
    rw [if_pos (by decide)]
    exact pyInt_joinWith gs hne hg
  | bin =>
    show interpret_integer ('0' :: 'b' :: joinWith '_' gs) = _
    rw [interpret_integer]
    simp only [startsWith2_cons_cons, List.drop_succ_cons, List.drop_zero]
    rw [if_neg (by decide), if_neg (by decide), if_pos (by decide)]
    rw [if_pos (by decide)]
    exact pyInt_joinWith gs hne hg

/-- C2: for every integer lexeme, `decode_integer` selects the base from the
two-character prefix (`0x` gives 16, `0o` gives 8, `0b` gives 2, anything
else 10), removes the prefix and the `_` digit-group separators, and
converts the remaining digits in that base; in particular
`decode_integer("0") = 0`, `decode_integer("0b1010") = 10`,
`decode_integer("0xFF_FF_FF") = 16777215` and `decode_integer("0o12") = 10`. -/
theorem ziggy_c2_integer_decoding (nb : NumBase) (gs : List (List Char))
    (hne : gs ≠ [])
    (hg : ∀ g ∈ gs, g ≠ [] ∧ ∀ c ∈ g, isBaseDigit (baseVal nb) c = true) :
    interpret_integer (basePrefix nb ++ joinWith '_' gs)
        = some ((foldDigits (baseVal nb) 0 gs.flatten : Nat) : Int)
      ∧ interpret_integer ("0".data) = some 0
      ∧ interpret_integer ("0b1010".data) = some 10
      ∧ interpret_integer ("0xFF_FF_FF".data) = some 16777215
      ∧ interpret_integer ("0o12".data) = some 10 :=
  ⟨interpret_integer_decodes nb gs hne hg, by decide, by decide, by decide, by decide⟩

/-- Witness for C2 at the lexeme `0xFF_FF_FF`. -/
theorem ziggy_c2_integer_decoding_witness :
    interpret_integer (basePrefix NumBase.hex ++ joinWith '_' [['F', 'F'], ['F', 'F'], ['F', 'F']])
      = some ((foldDigits (baseVal NumBase.hex) 0
          ([['F', 'F'], ['F', 'F'], ['F', 'F']] : List (List Char)).flatten : Nat) : Int) :=
  (ziggy_c2_integer_decoding NumBase.hex [['F', 'F'], ['F', 'F'], ['F', 'F']]
    (by decide) (by decide)).1

/-! ## Hexadecimal float lexemes (claim C1) -/

/-- Rendered optional fractional part `.f` of a hex float lexeme. -/
def renderFrac : Option (List Char) → List Char
  | none => []
  | some f => '.' :: f

/-- Rendered optional exponent part `p[-]e` of a hex float lexeme. -/
def renderExp : Option (Bool × List Char) → List Char
  | none => []
  | some (neg, es) => 'p' :: (if neg then '-' :: es else es)

/-- A hexadecimal float lexeme: prefix `0x`, hex integer digits, optional
`.` fractional hex digits, optional `p` signed decimal exponent. -/
def renderHexFloat (ip : List Char) (fr : Option (List Char))
    (ex : Option (Bool × List Char)) : List Char :=
  '0' :: 'x' :: (ip ++ renderFrac fr ++ renderExp ex)

/-- The signed decimal exponent denoted by the optional exponent part
(`0` when absent). -/
def expValOf : Option (Bool × List Char) → Int
  | none => 0
  | some (neg, es) =>
    if neg then -((foldDigits 10 0 es : Nat) : Int) else ((foldDigits 10 0 es : Nat) : Int)

/-- The base-16 integer denoted by the optional fractional digit string
(`0` when absent). -/
def fracValOf : Option (List Char) → Nat
  | none => 0
  | some f => foldDigits 16 0 f

/-- The claim's fractional contribution: `0` for `fracVal = 0`, otherwise
`fracVal / 10 ^ (round(log10 fracVal) + 1)`. -/
def fracContribution (fv : Nat) : ℚ :=
  if fv = 0 then 0 else (fv : ℚ) / 10 ^ (roundLog10 fv + 1)

theorem ne_underscore_of_baseDigit {b : Nat} {c : Char} (h : isBaseDigit b c = true) :
    c ≠ '_' := by
  obtain ⟨v, hv, -⟩ := isBaseDigit_iff.1 h
  exact ne_of_hexVal_some hv hexVal_underscore

theorem ne_p_of_baseDigit {b : Nat} {c : Char} (h : isBaseDigit b c = true) :
    c ≠ 'p' := by
  obtain ⟨v, hv, -⟩ := isBaseDigit_iff.1 h
  exact ne_of_hexVal_some hv hexVal_p

theorem ne_dot_of_baseDigit {b : Nat} {c : Char} (h : isBaseDigit b c = true) :
    c ≠ '.' := by
  obtain ⟨v, hv, -⟩ := isBaseDigit_iff.1 h
  exact ne_of_hexVal_some hv hexVal_dot

theorem contains_iff_mem {α : Type} [BEq α] [LawfulBEq α] {l : List α} {a : α} :
    l.contains a = true ↔ a ∈ l := by
  simp [List.contains]

theorem contains_eq_false_iff {α : Type} [BEq α] [LawfulBEq α] {l : List α} {a : α} :
    l.contains a = false ↔ a ∉ l := by
  simp [List.contains]

/-- Python's split leaves a separator-free string whole. -/
theorem pySplit_not_mem {sep : Char} {l : List Char} (h : sep ∉ l) :
    pySplit sep l = [l] := by
  induction l with
  | nil => rfl
  | cons c rest ih =>
    have hc : c ≠ sep := fun e => h (e ▸ List.mem_cons_self c rest)
    rw [pySplit.eq_def]
    dsimp only
    rw [if_neg hc, ih (fun hm => h (List.mem_cons_of_mem c hm))]

theorem pySplit_append_cons {sep : Char} {l₁ l₂ : List Char} (h : sep ∉ l₁) :
    pySplit sep (l₁ ++ sep :: l₂) = l₁ :: pySplit sep l₂ := by
  induction l₁ with
  | nil =>
    rw [List.nil_append, pySplit.eq_def]
    dsimp only
    rw [if_pos rfl]
  | cons c l₁' ih =>
    have hc : c ≠ sep := fun e => h (e ▸ List.mem_cons_self c l₁')
    rw [List.cons_append, pySplit.eq_def]
    dsimp only
    rw [if_neg hc, ih (fun hm => h (List.mem_cons_of_mem c hm))]

/-- Python's 2-way split of `l₁ ++ sep :: l₂` with `sep` in neither part. -/
theorem pySplit_pair {sep : Char} {l₁ l₂ : List Char} (h₁ : sep ∉ l₁) (h₂ : sep ∉ l₂) :
    pySplit sep (l₁ ++ sep :: l₂) = [l₁, l₂] := by
  rw [pySplit_append_cons h₁, pySplit_not_mem h₂]

theorem dropWhile_beq_eq_self {ch : Char} {l : List Char} (h : ∀ c ∈ l, c ≠ ch) :
    l.dropWhile (· == ch) = l := by
  cases l with
  | nil => rfl
  | cons c rest =>
    rw [List.dropWhile_cons, if_neg]
    simp only [beq_iff_eq]
    exact h c (by simp)

/-- `strip` is the identity on a string with no stripped character at all. -/
theorem pyStrip_eq_self {ch : Char} {l : List Char} (h : ∀ c ∈ l, c ≠ ch) :
    pyStrip ch l = l := by
  unfold pyStrip pyLstrip pyRstrip
  rw [dropWhile_beq_eq_self h, dropWhile_beq_eq_self (fun c hc => h c (List.mem_reverse.1 hc)),
    List.reverse_reverse]

/-- `lower()` leaves a decimal digit string unchanged. -/
theorem map_toLower_decimal {es : List Char} (h : ∀ c ∈ es, isBaseDigit 10 c = true) :
    es.map Char.toLower = es := by
  induction es with
  | nil => rfl
  | cons c rest ih =>
    obtain ⟨v, hv, hvb⟩ := isBaseDigit_iff.1 (h c (by simp))
    rw [List.map_cons, toLower_decimal_digit hv hvb, ih (fun d hd => h d (by simp [hd]))]

/-- `lower()` does not change the value of a digit string. -/
theorem foldDigits_map_toLower {b : Nat} (l : List Char) (acc : Nat)
    (h : ∀ c ∈ l, isBaseDigit b c = true) :
    foldDigits b acc (l.map Char.toLower) = foldDigits b acc l := by
  induction l generalizing acc with
  | nil => rfl
  | cons c rest ih =>
    obtain ⟨v, hv, hvb⟩ := isBaseDigit_iff.1 (h c (by simp))
    rw [List.map_cons, foldDigits_cons b acc _ _ v (hexVal_toLower hv),
      foldDigits_cons b acc c rest v hv]
    exact ih _ (fun d hd => h d (by simp [hd]))

theorem hexPExp_no_p {s x0 : List Char} (h : x0.contains 'p' = false) :
    hexPExp s x0 = some (s, 0) := by
  rw [hexPExp, h]
  rfl

theorem hexPExp_split {pre tail x0 : List Char} (hx : x0.contains 'p' = true)
    (hpre : 'p' ∉ pre) (htail : 'p' ∉ tail) :
    hexPExp (pre ++ 'p' :: tail) x0 = (pyInt 10 tail).map (fun ev => (pre, ev)) := by
  rw [hexPExp, hx, pySplit_pair hpre htail]
  simp

theorem hexBaseFrac_no_dot {x : List Char} (h : x.contains '.' = false) :
    hexBaseFrac x = (pyInt 16 x).map (fun bv => (bv, 0)) := by
  rw [hexBaseFrac, h]
  rfl

theorem hexBaseFrac_dot {bp d : List Char} {bv dv : Int}
    (hc : (bp ++ '.' :: d).contains '.' = true)
    (hbp : '.' ∉ bp) (hd : '.' ∉ d)
    (hb : pyInt 16 bp = some bv) (hdv : pyInt 16 d = some dv) :
    hexBaseFrac (bp ++ '.' :: d) = some (bv, dv) := by
  rw [hexBaseFrac, hc, pySplit_pair hbp hd]
  dsimp only
  rw [hb, hdv]
  simp

/-- `int(s, 16)` accepts a leading `0x`. -/
theorem pyInt_hex_prefixed (l : List Char) (hne : l ≠ [])
    (hd : ∀ c ∈ l, isBaseDigit 16 c = true) :
    pyInt 16 ('0' :: 'x' :: l) = some ((foldDigits 16 0 l : Nat) : Int) := by
  rw [pyInt.eq_def]
  dsimp only
  rw [if_neg (by decide), if_neg (by decide), pyIntCore.eq_def]
  dsimp only
  rw [if_pos ⟨rfl, Or.inl ⟨rfl, Or.inl rfl⟩⟩]
  obtain ⟨c, rest, rfl⟩ : ∃ c rest, l = c :: rest := by
    cases l with
    | nil => exact absurd rfl hne
    | cons c rest => exact ⟨c, rest, rfl⟩
  rw [pyAfterPrefix.eq_def]
  dsimp only
  rw [if_neg (ne_underscore_of_baseDigit (hd c (by simp))), pyDigits_digits _ hne hd]
  rfl

theorem not_isBasePrefix_ten {c0 c1 : Char} : ¬ isBasePrefix 10 c0 c1 := by
  rintro ⟨-, ⟨h, -⟩ | ⟨h, -⟩ | ⟨h, -⟩⟩ <;> omega

/-- `int(_, 10)` on the rendered signed exponent. -/
theorem pyInt_signed_exp (neg : Bool) (es : List Char) (hne : es ≠ [])
    (hd : ∀ c ∈ es, isBaseDigit 10 c = true) :
    pyInt 10 (if neg then '-' :: es else es) = some (expValOf (some (neg, es))) := by
  cases neg with
  | false =>
    rw [if_neg (by decide), pyInt_digits es hne hd]
    rfl
  | true =>
    rw [if_pos rfl]
    obtain ⟨c, rest, rfl⟩ : ∃ c rest, es = c :: rest := by
      cases es with
      | nil => exact absurd rfl hne
      | cons c rest => exact ⟨c, rest, rfl⟩
    rw [pyInt.eq_def]
    dsimp only
    rw [if_pos rfl,
      pyIntCore_eq_pyDigits (fun d0 d1 r he => not_isBasePrefix_ten),
      pyDigits_digits _ hne hd]
    rfl

/-- The code's fractional-contribution formula agrees with the claim's. -/
theorem hexDec_eq_fracContribution (fv : Nat) :
    hexDec ((fv : Nat) : Int) = fracContribution fv := by
  unfold hexDec fracContribution
  by_cases h : fv = 0
  · subst h
    norm_num
  · rw [if_neg (by exact_mod_cast h), if_neg h]
    rw [Int.toNat_natCast, zpow_neg, zpow_natCast, div_eq_mul_inv]
    norm_cast

theorem not_not_startsWith2_xx (t : List Char) :
    ¬ ¬ startsWith2 '0' 'x' ('0' :: 'x' :: t) = true := fun h => h rfl

/-- The general decoding law for hexadecimal float lexemes. -/
theorem interpret_float_hex (ip : List Char) (fr : Option (List Char))
    (ex : Option (Bool × List Char))
    (hip : ip ≠ []) (hipd : ∀ c ∈ ip, isBaseDigit 16 c = true)
    (hfr : ∀ f, fr = some f → f ≠ [] ∧ ∀ c ∈ f, isBaseDigit 16 c = true)
    (hexp : ∀ p, ex = some p → p.2 ≠ [] ∧ ∀ c ∈ p.2, isBaseDigit 10 c = true) :
    interpret_float (renderHexFloat ip fr ex)
      = some ((((foldDigits 16 0 ip : Nat) : ℚ) + fracContribution (fracValOf fr))
          * (10 : ℚ) ^ expValOf ex) := by
  have t0 : Char.toLower '0' = '0' := by decide
  have tx : Char.toLower 'x' = 'x' := by decide
  have td : Char.toLower '.' = '.' := by decide
  have tp : Char.toLower 'p' = 'p' := by decide
  have tm : Char.toLower '-' = '-' := by decide
  have hipl_ne : ip.map Char.toLower ≠ [] := by simpa using hip
  have hipl_d : ∀ c ∈ ip.map Char.toLower, isBaseDigit 16 c = true := by
    intro c hc
    obtain ⟨c0, hc0, rfl⟩ := List.mem_map.1 hc
    exact isBaseDigit_toLower (hipd c0 hc0)
  have hfold : foldDigits 16 0 (ip.map Char.toLower) = foldDigits 16 0 ip :=
    foldDigits_map_toLower ip 0 hipd
  have hp_ipl : 'p' ∉ ip.map Char.toLower :=
    fun hm => ne_p_of_baseDigit (hipl_d _ hm) rfl
  have hdot_ipl : '.' ∉ ip.map Char.toLower :=
    fun hm => ne_dot_of_baseDigit (hipl_d _ hm) rfl
  have hu_ipl : ∀ c ∈ ip.map Char.toLower, c ≠ '_' :=
    fun c hc => ne_underscore_of_baseDigit (hipl_d c hc)
  rcases fr with - | f <;> rcases ex with - | ⟨neg, es⟩
  · -- no fraction, no exponent
    have hmap : (renderHexFloat ip none none).map Char.toLower
        = '0' :: 'x' :: ip.map Char.toLower := by
      simp [renderHexFloat, renderFrac, renderExp, t0, tx]
    have hmem : ∀ c ∈ '0' :: 'x' :: ip.map Char.toLower, c ≠ '_' := by
      intro c hc
      rcases List.mem_cons.1 hc with rfl | hc
      · decide
      rcases List.mem_cons.1 hc with rfl | hc
      · decide
      exact hu_ipl c hc
    rw [interpret_float, hmap, pyStrip_eq_self hmem]
    rw [if_neg (not_not_startsWith2_xx _)]
    simp only [List.drop_succ_cons, List.drop_zero]
    rw [hexPExp_no_p (contains_eq_false_iff.2 hp_ipl)]
    dsimp only
    rw [hexBaseFrac_no_dot (contains_eq_false_iff.2 (by
      intro hm
      rcases List.mem_cons.1 hm with h0 | hm
      · cases h0
      rcases List.mem_cons.1 hm with h0 | hm
      · cases h0
      exact hdot_ipl hm))]
    rw [pyInt_hex_prefixed _ hipl_ne hipl_d]
    dsimp only [Option.map_some']
    rw [hfold]
    norm_num [hexDec, fracContribution, fracValOf, expValOf]
  · -- no fraction, exponent present
    obtain ⟨hesne, hesd⟩ := hexp (neg, es) rfl
    have hsgn_u : ∀ c ∈ (if neg then '-' :: es else es), c ≠ '_' := by
      intro c hc
      cases neg with
      | true =>
        rcases List.mem_cons.1 hc with rfl | hm
        · decide
        · exact ne_underscore_of_baseDigit (hesd c hm)
      | false => exact ne_underscore_of_baseDigit (hesd c hc)
    have hsgn_p : 'p' ∉ (if neg then '-' :: es else es) := by
      intro hm
      cases neg with
      | true =>
        rcases List.mem_cons.1 hm with h0 | hm
        · cases h0
        · exact ne_p_of_baseDigit (hesd _ hm) rfl
      | false => exact ne_p_of_baseDigit (hesd _ hm) rfl
    have hmap : (renderHexFloat ip none (some (neg, es))).map Char.toLower
        = '0' :: 'x' :: (ip.map Char.toLower ++ 'p' :: (if neg then '-' :: es else es)) := by
      cases neg <;>
        simp [renderHexFloat, renderFrac, renderExp, t0, tx, tp, tm, map_toLower_decimal hesd]
    have hmem : ∀ c ∈ '0' :: 'x' :: (ip.map Char.toLower ++ 'p' :: (if neg then '-' :: es else es)),
        c ≠ '_' := by
      intro c hc
      rcases List.mem_cons.1 hc with rfl | hc
      · decide
      rcases List.mem_cons.1 hc with rfl | hc
      · decide
      rcases List.mem_append.1 hc with hc | hc
      · exact hu_ipl c hc
      rcases List.mem_cons.1 hc with rfl | hc
      · decide
      exact hsgn_u c hc
    have hx : (ip.map Char.toLower ++ 'p' :: (if neg then '-' :: es else es)).contains 'p'
        = true := contains_iff_mem.2 (by simp)
    have hE1 : ('0' :: 'x' :: (ip.map Char.toLower ++ 'p' :: (if neg then '-' :: es else es)))
        = ('0' :: 'x' :: ip.map Char.toLower) ++ 'p' :: (if neg then '-' :: es else es) := by
      simp
    rw [interpret_float, hmap, pyStrip_eq_self hmem]
    rw [if_neg (not_not_startsWith2_xx _)]
    simp only [List.drop_succ_cons, List.drop_zero]
    rw [hE1, hexPExp_split hx (by
        intro hm
        rcases List.mem_cons.1 hm with h0 | hm
        · cases h0
        rcases List.mem_cons.1 hm with h0 | hm
        · cases h0
        exact hp_ipl hm) hsgn_p]
    rw [pyInt_signed_exp neg es hesne hesd]
    dsimp only [Option.map_some']
    rw [hexBaseFrac_no_dot (contains_eq_false_iff.2 (by
      intro hm
      rcases List.mem_cons.1 hm with h0 | hm
      · cases h0
      rcases List.mem_cons.1 hm with h0 | hm
      · cases h0
      exact hdot_ipl hm))]
    rw [pyInt_hex_prefixed _ hipl_ne hipl_d]
    dsimp only [Option.map_some']
    rw [hfold]
    norm_num [hexDec, fracContribution, fracValOf]
  · -- fraction present, no exponent
    obtain ⟨hfne, hfd⟩ := hfr f rfl
    have hfl_ne : f.map Char.toLower ≠ [] := by simpa using hfne
    have hfl_d : ∀ c ∈ f.map Char.toLower, isBaseDigit 16 c = true := by
      intro c hc
      obtain ⟨c0, hc0, rfl⟩ := List.mem_map.1 hc
      exact isBaseDigit_toLower (hfd c0 hc0)
    have hfl_u : ∀ c ∈ f.map Char.toLower, c ≠ '_' :=
      fun c hc => ne_underscore_of_baseDigit (hfl_d c hc)
    have hfl_p : 'p' ∉ f.map Char.toLower :=
      fun hm => ne_p_of_baseDigit (hfl_d _ hm) rfl
    have hfl_dot : '.' ∉ f.map Char.toLower :=
      fun hm => ne_dot_of_baseDigit (hfl_d _ hm) rfl
    have hmap : (renderHexFloat ip (some f) none).map Char.toLower
        = '0' :: 'x' :: (ip.map Char.toLower ++ '.' :: f.map Char.toLower) := by
      simp [renderHexFloat, renderFrac, renderExp, t0, tx, td]
    have hmem : ∀ c ∈ '0' :: 'x' :: (ip.map Char.toLower ++ '.' :: f.map Char.toLower),
        c ≠ '_' := by
      intro c hc
      rcases List.mem_cons.1 hc with rfl | hc
      · decide
      rcases List.mem_cons.1 hc with rfl | hc
      · decide
      rcases List.mem_append.1 hc with hc | hc
      · exact hu_ipl c hc
      rcases List.mem_cons.1 hc with rfl | hc
      · decide
      exact hfl_u c hc
    have hnp : 'p' ∉ ip.map Char.toLower ++ '.' :: f.map Char.toLower := by
      intro hm
      rcases List.mem_append.1 hm with hm | hm
      · exact hp_ipl hm
      rcases List.mem_cons.1 hm with h0 | hm
      · cases h0
      exact hfl_p hm
    have hE2 : ('0' :: 'x' :: (ip.map Char.toLower ++ '.' :: f.map Char.toLower))
        = ('0' :: 'x' :: ip.map Char.toLower) ++ '.' :: f.map Char.toLower := by
      simp
    rw [interpret_float, hmap, pyStrip_eq_self hmem]
    rw [if_neg (not_not_startsWith2_xx _)]
    simp only [List.drop_succ_cons, List.drop_zero]
    rw [hexPExp_no_p (contains_eq_false_iff.2 hnp)]
    dsimp only
    rw [hE2, hexBaseFrac_dot (contains_iff_mem.2 (by simp))
      (by
        intro hm
        rcases List.mem_cons.1 hm with h0 | hm
        · cases h0
        rcases List.mem_cons.1 hm with h0 | hm
        · cases h0
        exact hdot_ipl hm)
      hfl_dot
      (pyInt_hex_prefixed _ hipl_ne hipl_d)
      (pyInt_digits _ hfl_ne hfl_d)]
    dsimp only
    rw [hexDec_eq_fracContribution, foldDigits_map_toLower f 0 hfd, hfold]
    norm_num [fracValOf, expValOf]
  · -- fraction and exponent present
    obtain ⟨hfne, hfd⟩ := hfr f rfl
    obtain ⟨hesne, hesd⟩ := hexp (neg, es) rfl
    have hfl_ne : f.map Char.toLower ≠ [] := by simpa using hfne
    have hfl_d : ∀ c ∈ f.map Char.toLower, isBaseDigit 16 c = true := by
      intro c hc
      obtain ⟨c0, hc0, rfl⟩ := List.mem_map.1 hc
      exact isBaseDigit_toLower (hfd c0 hc0)
    have hfl_u : ∀ c ∈ f.map Char.toLower, c ≠ '_' :=
      fun c hc => ne_underscore_of_baseDigit (hfl_d c hc)
    have hfl_p : 'p' ∉ f.map Char.toLower :=
      fun hm => ne_p_of_baseDigit (hfl_d _ hm) rfl
    have hfl_dot : '.' ∉ f.map Char.toLower :=
      fun hm => ne_dot_of_baseDigit (hfl_d _ hm) rfl
    have hsgn_u : ∀ c ∈ (if neg then '-' :: es else es), c ≠ '_' := by
      intro c hc
      cases neg with
      | true =>
        rcases List.mem_cons.1 hc with rfl | hm
        · decide
        · exact ne_underscore_of_baseDigit (hesd c hm)
      | false => exact ne_underscore_of_baseDigit (hesd c hc)
    have hsgn_p : 'p' ∉ (if neg then '-' :: es else es) := by
      intro hm
      cases neg with
      | true =>
        rcases List.mem_cons.1 hm with h0 | hm
        · cases h0
        · exact ne_p_of_baseDigit (hesd _ hm) rfl
      | false => exact ne_p_of_baseDigit (hesd _ hm) rfl
    have hmap : (renderHexFloat ip (some f) (some (neg, es))).map Char.toLower
        = '0' :: 'x' :: (ip.map Char.toLower ++
            '.' :: (f.map Char.toLower ++ 'p' :: (if neg then '-' :: es else es))) := by
      cases neg <;>
        simp [renderHexFloat, renderFrac, renderExp, t0, tx, td, tp, tm,
          map_toLower_decimal hesd]
    have hmem : ∀ c ∈ '0' :: 'x' :: (ip.map Char.toLower ++
        '.' :: (f.map Char.toLower ++ 'p' :: (if neg then '-' :: es else es))), c ≠ '_' := by
      intro c hc
      rcases List.mem_cons.1 hc with rfl | hc
      · decide
      rcases List.mem_cons.1 hc with rfl | hc
      · decide
      rcases List.mem_append.1 hc with hc | hc
      · exact hu_ipl c hc
      rcases List.mem_cons.1 hc with rfl | hc
      · decide
      rcases List.mem_append.1 hc with hc | hc
      · exact hfl_u c hc
      rcases List.mem_cons.1 hc with rfl | hc
      · decide
      exact hsgn_u c hc
    have hx : (ip.map Char.toLower ++
        '.' :: (f.map Char.toLower ++ 'p' :: (if neg then '-' :: es else es))).contains 'p'
        = true := contains_iff_mem.2 (by simp)
    have hE1 : ('0' :: 'x' :: (ip.map Char.toLower ++
          '.' :: (f.map Char.toLower ++ 'p' :: (if neg then '-' :: es else es))))
        = ('0' :: 'x' :: (ip.map Char.toLower ++ '.' :: f.map Char.toLower))
            ++ 'p' :: (if neg then '-' :: es else es) := by
      simp
    have hpre : 'p' ∉ '0' :: 'x' :: (ip.map Char.toLower ++ '.' :: f.map Char.toLower) := by
      intro hm
      rcases List.mem_cons.1 hm with h0 | hm
      · cases h0
      rcases List.mem_cons.1 hm with h0 | hm
      · cases h0
      rcases List.mem_append.1 hm with hm | hm
      · exact hp_ipl hm
      rcases List.mem_cons.1 hm with h0 | hm
      · cases h0
      exact hfl_p hm
    have hE2 : ('0' :: 'x' :: (ip.map Char.toLower ++ '.' :: f.map Char.toLower))
        = ('0' :: 'x' :: ip.map Char.toLower) ++ '.' :: f.map Char.toLower := by
      simp
    rw [interpret_float, hmap, pyStrip_eq_self hmem]
    rw [if_neg (not_not_startsWith2_xx _)]
    simp only [List.drop_succ_cons, List.drop_zero]
    rw [hE1, hexPExp_split hx hpre hsgn_p]
    rw [pyInt_signed_exp neg es hesne hesd]
    dsimp only [Option.map_some']
    rw [hE2, hexBaseFrac_dot (contains_iff_mem.2 (by simp))
      (by
        intro hm
        rcases List.mem_cons.1 hm with h0 | hm
        · cases h0
        rcases List.mem_cons.1 hm with h0 | hm
        · cases h0
        exact hdot_ipl hm)
      hfl_dot
      (pyInt_hex_prefixed _ hipl_ne hipl_d)
      (pyInt_digits _ hfl_ne hfl_d)]
    dsimp only
    rw [hexDec_eq_fracContribution, foldDigits_map_toLower f 0 hfd, hfold]
    norm_num [fracValOf]

/-- C1: for every hexadecimal float lexeme (prefix `0x`, optional `.`
fractional hex digits, optional `p` signed decimal exponent),
`decode_float` returns `(base16 + fracContribution) * 10 ^ exp`, where
`base16` is the hex integer part decoded base 16, `exp` the signed decimal
exponent (`0` if absent), and `fracContribution` is `0` when the
fractional hex digit string decodes to `fracVal = 0` and otherwise
`fracVal / 10 ^ k` with `k = round(log10 fracVal) + 1`; in particular
`decode_float("0xef.abp12")` is within `1e-10` of `239.171e12` and
`decode_float("0x103.70p-5")` is within `1e-10` of `259.112e-5` (exactly
equal, in the exact-rational semantics). -/
theorem ziggy_c1_hex_float_decoding (ip : List Char) (fr : Option (List Char))
    (ex : Option (Bool × List Char))
    (hip : ip ≠ []) (hipd : ∀ c ∈ ip, isBaseDigit 16 c = true)
    (hfr : ∀ f, fr = some f → f ≠ [] ∧ ∀ c ∈ f, isBaseDigit 16 c = true)
    (hexp : ∀ p, ex = some p → p.2 ≠ [] ∧ ∀ c ∈ p.2, isBaseDigit 10 c = true) :
    interpret_float (renderHexFloat ip fr ex)
        = some ((((foldDigits 16 0 ip : Nat) : ℚ) + fracContribution (fracValOf fr))
            * (10 : ℚ) ^ expValOf ex)
      ∧ (∃ q, interpret_float ("0xef.abp12".data) = some q
          ∧ |q - 239171 * 10 ^ 9| ≤ 1 / 10 ^ 10)
      ∧ (∃ q, interpret_float ("0x103.70p-5".data) = some q
          ∧ |q - 259112 / 10 ^ 8| ≤ 1 / 10 ^ 10) := by
  refine ⟨interpret_float_hex ip fr ex hip hipd hfr hexp, ?_, ?_⟩
  · have h := interpret_float_hex ['e', 'f'] (some ['a', 'b']) (some (false, ['1', '2']))
      (by decide) (by decide)
      (fun f hf => by injection hf with hh; subst hh; exact ⟨by decide, by decide⟩)
      (fun p hp => by injection hp with hh; subst hh; exact ⟨by decide, by decide⟩)
    have hr : renderHexFloat ['e', 'f'] (some ['a', 'b']) (some (false, ['1', '2']))
        = "0xef.abp12".data := by decide
    rw [hr] at h
    refine ⟨_, h, ?_⟩
    have hv : ((((foldDigits 16 0 ['e', 'f'] : Nat) : ℚ)
        + fracContribution (fracValOf (some ['a', 'b'])))
        * (10 : ℚ) ^ expValOf (some (false, ['1', '2']))) = 239171 * 10 ^ 9 := by
      rw [show (foldDigits 16 0 ['e', 'f'] : Nat) = 239 from by decide,
        show fracValOf (some ['a', 'b']) = 171 from by decide,
        show expValOf (some (false, ['1', '2'])) = (12 : Int) from by decide,
        fracContribution,
        if_neg (by decide : ¬ (171 : Nat) = 0),
        show roundLog10 171 = 2 from by decide]
      norm_num
    rw [hv, sub_self, abs_zero]
    norm_num
  · have h := interpret_float_hex ['1', '0', '3'] (some ['7', '0']) (some (true, ['5']))
      (by decide) (by decide)
      (fun f hf => by injection hf with hh; subst hh; exact ⟨by decide, by decide⟩)
      (fun p hp => by injection hp with hh; subst hh; exact ⟨by decide, by decide⟩)
    have hr : renderHexFloat ['1', '0', '3'] (some ['7', '0']) (some (true, ['5']))
        = "0x103.70p-5".data := by decide
    rw [hr] at h
    refine ⟨_, h, ?_⟩
    have hv : ((((foldDigits 16 0 ['1', '0', '3'] : Nat) : ℚ)
        + fracContribution (fracValOf (some ['7', '0'])))
        * (10 : ℚ) ^ expValOf (some (true, ['5']))) = 259112 / 10 ^ 8 := by
      rw [show (foldDigits 16 0 ['1', '0', '3'] : Nat) = 259 from by decide,
        show fracValOf (some ['7', '0']) = 112 from by decide,
        show expValOf (some (true, ['5'])) = (-5 : Int) from by decide,
        fracContribution,
        if_neg (by decide : ¬ (112 : Nat) = 0),
        show roundLog10 112 = 2 from by decide]
      norm_num
    rw [hv, sub_self, abs_zero]
    norm_num

/-- Witness for C1 at the lexeme `0xef.abp12`. -/
theorem ziggy_c1_hex_float_decoding_witness :
    interpret_float (renderHexFloat ['e', 'f'] (some ['a', 'b']) (some (false, ['1', '2'])))
      = some ((((foldDigits 16 0 ['e', 'f'] : Nat) : ℚ)
          + fracContribution (fracValOf (some ['a', 'b'])))
          * (10 : ℚ) ^ expValOf (some (false, ['1', '2']))) :=
  (ziggy_c1_hex_float_decoding ['e', 'f'] (some ['a', 'b']) (some (false, ['1', '2']))
    (by decide) (by decide)
    (fun f hf => by injection hf with hh; subst hh; exact ⟨by decide, by decide⟩)
    (fun p hp => by injection hp with hh; subst hh; exact ⟨by decide, by decide⟩)).1

/-! ## `roundLog10` really is `round ∘ log10` -/

theorem nlog10Aux_eq_log (fuel : Nat) : ∀ n, n ≤ fuel → nlog10Aux fuel n = Nat.log 10 n := by
  induction fuel with
  | zero =>
    intro n hn
    obtain rfl : n = 0 := by omega
    simp [nlog10Aux]
  | succ f ih =>
    intro n hn
    rw [nlog10Aux]
    by_cases h10 : n < 10
    · rw [if_pos h10, Nat.log_eq_zero_iff.2 (Or.inl h10)]
    · have hpos : 0 < n := by omega
      have hdiv : n / 10 ≤ f := by
        have := Nat.div_lt_self hpos (by norm_num : 1 < 10)
        omega
      rw [if_neg h10, ih _ hdiv]
      have hlogpos : 0 < Nat.log 10 n := Nat.log_pos (by norm_num) (by omega)
      have := Nat.log_div_base 10 n
      omega

theorem nlog10_eq_log (n : Nat) : nlog10 n = Nat.log 10 n :=
  nlog10Aux_eq_log n n le_rfl

/-- `roundLog10 n` is the rounding of `log10 n` for `n ≥ 1`: it is the
unique `m` with `10 ^ (2*m - 1) ≤ n² < 10 ^ (2*m + 1)`, i.e. with
`m - 1/2 ≤ log10 n < m + 1/2` (stated multiplied through to stay in `ℕ`;
`log10 n` can never be exactly a half-integer at an integer argument). -/
theorem roundLog10_spec (n : Nat) (h : 1 ≤ n) :
    10 ^ (2 * roundLog10 n) ≤ 10 * (n * n) ∧ n * n < 10 ^ (2 * roundLog10 n + 1) := by
  have hnn : n * n ≠ 0 := by positivity
  set e := Nat.log 10 (n * n) with he
  have he1 : 10 ^ e ≤ n * n := Nat.pow_log_le_self 10 hnn
  have he2 : n * n < 10 ^ (e + 1) := Nat.lt_pow_succ_log_self (by norm_num) _
  have hm : roundLog10 n = (e + 1) / 2 := by
    rw [roundLog10, nlog10_eq_log, he]
  rcases (by omega : e = 2 * ((e + 1) / 2) ∨ e + 1 = 2 * ((e + 1) / 2)) with hc | hc
  · constructor
    · rw [hm, ← hc]
      omega
    · rw [hm, ← hc]
      exact lt_of_lt_of_le he2 (Nat.pow_le_pow_right (by norm_num) (by omega))
  · constructor
    · rw [hm, ← hc, pow_succ]
      omega
    · rw [hm, ← hc]
      exact lt_of_lt_of_le he2 (Nat.pow_le_pow_right (by norm_num) (by omega))

/-! ## The value model and the syntax-tree contract

The tree-sitter grammar engine is external (out of scope per the spec):
its output is modelled as an arbitrary tree of nodes carrying a type tag,
an optional decoded text, the child list, the named-child list, the
field table consulted by `child_by_field_name`, and a start position. -/

/-- The Python values the decoder produces (`None`, `bool`, `int`, `float`,
`str`, `list`, `dict` with insertion order). Host objects produced by
registered constructors/converters are whatever `Value` the registered
function returns. -/
inductive Value where
  | null
  | bool (b : Bool)
  | int (n : Int)
  | float (q : ℚ)
  | str (s : List Char)
  | list (xs : List Value)
  | dict (d : List (List Char × Value))

instance : Inhabited Value := ⟨Value.null⟩

/-- A syntax tree node as the decoder consumes it. -/
inductive Node where
  | mk (ty : String) (txt : Option (List Char)) (children : List Node)
      (namedChildren : List Node) (fields : List (String × Node))
      (row : Nat) (col : Nat)

def Node.ty : Node → String
  | .mk t _ _ _ _ _ _ => t

def Node.txt : Node → Option (List Char)
  | .mk _ t _ _ _ _ _ => t

def Node.children : Node → List Node
  | .mk _ _ c _ _ _ _ => c

def Node.namedChildren : Node → List Node
  | .mk _ _ _ nc _ _ _ => nc

def Node.fields : Node → List (String × Node)
  | .mk _ _ _ _ fs _ _ => fs

def Node.row : Node → Nat
  | .mk _ _ _ _ _ r _ => r

def Node.col : Node → Nat
  | .mk _ _ _ _ _ _ c => c

/-- `node.child_by_field_name(name)`. -/
def Node.field (n : Node) (name : String) : Option Node :=
  (n.fields.lookup name)

/-- The failure modes of the decode path: `unsupported` is the
`UnsupportedNodeError` (`ValueError("unsupported: ...")` in the source),
`assertFail` a failed `assert`, `indexError` an out-of-range child access,
`convError` a `ValueError` out of `int()`/`float()`, and `outOfFuel` the
exhaustion of the embedding's recursion budget (Python's recursion is
bounded only by its interpreter stack). -/
inductive PErr where
  | unsupported (ty : String)
  | assertFail
  | indexError
  | convError
  | outOfFuel
deriving DecidableEq

/-- The `literals` registry: tag name to converter. -/
abbrev Lits := List (List Char × (List Char → Value))

/-- The `structs` registry: struct name to constructor over keyword fields. -/
abbrev Structs := List (List Char × (List (List Char × Value) → Value))

/-- Python `dict` assignment `d[k] = v`: overwrite in place if the key is
present (keeping its position), else append. -/
def pyDictInsert (d : List (List Char × Value)) (k : List Char) (v : Value) :
    List (List Char × Value) :=
  if d.any (fun p => p.1 == k) then d.map (fun p => if p.1 == k then (k, v) else p)
  else d ++ [(k, v)]

/-! ## The interpreter (`Parser` methods of `parser.py`)

Each method that calls `self.interpret` recursively receives the
interpreter as the `interp` argument; `interpretN` ties the knot with an
explicit recursion budget (`fuel`), consumed once per `interpret` call on
a present node. -/

def interpret_identifier (n : Node) : Except PErr (List Char) :=
  match n.txt with
  | some t => .ok t
  | none => .error .assertFail

def interpret_quoted_string (n : Node) : Except PErr (List Char) :=
  match n.txt with
  | some t => .ok (pyStrip '"' t)
  | none => .error .assertFail

def interpret_multiline_string (n : Node) : Except PErr (List Char) := do
  let lines ← n.namedChildren.mapM (fun c =>
    match c.txt with
    | some t => Except.ok (pyLstrip '\\' t)
    | none => Except.error PErr.assertFail)
  return joinWith '\n' lines

def interpret_string (n : Node) : Except PErr (List Char) :=
  if n.children.length = 1 then interpret_quoted_string n
  else interpret_multiline_string n

def interpret_tag_string (lits : Lits) (n : Node) : Except PErr Value :=
  match n.namedChildren with
  | [] => .error .indexError
  | c0 :: rest =>
    match c0.txt with
    | none => .error .assertFail
    | some name =>
      match rest with
      | [] => .error .indexError
      | c1 :: _ =>
        match interpret_quoted_string c1 with
        | .error e => .error e
        | .ok v =>
          match List.lookup name lits with
          | some f => .ok (f v)
          | none => .ok (.str v)

/-- The body of `interpret_map`'s loop: read the `key` field as a quoted
string (assert it exists), interpret the `value` field recursively, and
assign into the dict. -/
def mapStep (interp : Option Node → Except PErr Value)
    (d : List (List Char × Value)) (c : Node) :
    Except PErr (List (List Char × Value)) :=
  match c.field "key" with
  | none => Except.error PErr.assertFail
  | some keyNode => do
    let k ← interpret_quoted_string keyNode
    let v ← interp (c.field "value")
    return pyDictInsert d k v

def interpret_map (interp : Option Node → Except PErr Value) (n : Node) :
    Except PErr Value := do
  let d ← n.namedChildren.foldlM (mapStep interp) ([] : List (List Char × Value))
  return Value.dict d

def interpret_array (interp : Option Node → Except PErr Value) (n : Node) :
    Except PErr Value := do
  let arr ← n.namedChildren.foldlM (fun a c =>
    match c.children.getLast? with
    | none => Except.error PErr.indexError
    | some last => do
      let x ← interp (some last)
      return a ++ [x]) ([] : List Value)
  return Value.list arr

/-- The body of `interpret_struct`'s field loop: non-`struct_field`
children are skipped, otherwise the `key` field is read as an identifier
and the `value` field interpreted recursively. -/
def structStep (interp : Option Node → Except PErr Value)
    (d : List (List Char × Value)) (c : Node) :
    Except PErr (List (List Char × Value)) :=
  if c.ty ≠ "struct_field" then pure d
  else
    match c.field "key" with
    | none => Except.error PErr.assertFail
    | some keyNode => do
      let k ← interpret_identifier keyNode
      let v ← interp (c.field "value")
      return pyDictInsert d k v

/-- The field-collection loop of `interpret_struct`. -/
def structFields (interp : Option Node → Except PErr Value) (n : Node) :
    Except PErr (List (List Char × Value)) :=
  n.namedChildren.foldlM (structStep interp) []

def interpret_struct (interp : Option Node → Except PErr Value)
    (structs : Structs) (n : Node) : Except PErr Value := do
  let fields ← structFields interp n
  match n.field "name" with
  | some nameNode =>
    match nameNode.txt with
    | none => .error .assertFail
    | some name =>
      match List.lookup name structs with
      | some ctor => return ctor fields
      | none => return Value.dict fields
  | none => return Value.dict fields

/-- `Parser.interpret`, with a recursion budget. `interpret(None)` returns
`None` before anything else, exactly as the source does. -/
def interpretN (lits : Lits) (structs : Structs) : Nat → Option Node → Except PErr Value
  | _, none => .ok .null
  | 0, some _ => .error .outOfFuel
  | fuel + 1, some n =>
    match n.ty with
    | "document" => interpretN lits structs fuel (n.children.get? 0)
    | "true" => .ok (.bool true)
    | "false" => .ok (.bool false)
    | "null" => .ok .null
    | "integer" =>
      match n.txt with
      | none => .error .assertFail
      | some t =>
        match interpret_integer t with
        | some v => .ok (.int v)
        | none => .error .convError
    | "float" =>
      match n.txt with
      | none => .error .assertFail
      | some t =>
        match interpret_float t with
        | some q => .ok (.float q)
        | none => .error .convError
    | "identifier" => (interpret_identifier n).map Value.str
    | "string" => (interpret_string n).map Value.str
    | "quoted_string" => (interpret_quoted_string n).map Value.str
    | "tag_string" => interpret_tag_string lits n
    | "map" => interpret_map (fun nd => interpretN lits structs fuel nd) n
    | "array" => interpret_array (fun nd => interpretN lits structs fuel nd) n
    | "struct" => interpret_struct (fun nd => interpretN lits structs fuel nd) structs n
    | "top_level_struct" => interpret_struct (fun nd => interpretN lits structs fuel nd) structs n
    | t => .error (.unsupported t)

/-! ## Error reporting (`parse`, lines 68-101 of the source) -/

/-- Depth-first collection of `ERROR` nodes (`find_errors` in the source):
the node itself first, then its children in order. -/
def find_errors : Node → List Node
  | .mk ty txt ch nc fs r c =>
    (if ty = "ERROR" then [Node.mk ty txt ch nc fs r c] else [])
      ++ (ch.attach.map (fun x => find_errors x.1)).flatten
decreasing_by
  simp only [Node.mk.sizeOf_spec]
  have := List.sizeOf_lt_of_mem x.2
  omega

theorem find_errors_eq (n : Node) :
    find_errors n = (if n.ty = "ERROR" then [n] else [])
      ++ (n.children.map (fun x => find_errors x)).flatten := by
  match n with
  | .mk ty txt ch nc fs r c =>
    rw [find_errors, List.attach_map_coe]
    rfl

/-- The tree contains at least one `ERROR` node. -/
inductive HasError : Node → Prop where
  | here (n : Node) : n.ty = "ERROR" → HasError n
  | child (n c : Node) : c ∈ n.children → HasError c → HasError n

theorem hasError_of_find_errors (n : Node) (h : find_errors n ≠ []) : HasError n := by
  match n with
  | .mk ty txt ch nc fs r c =>
    rw [find_errors_eq] at h
    by_cases he : (Node.mk ty txt ch nc fs r c).ty = "ERROR"
    · exact HasError.here _ he
    · rw [if_neg he, List.nil_append] at h
      obtain ⟨l, hl, hlne⟩ : ∃ l ∈ ch.map (fun x => find_errors x), l ≠ [] := by
        by_contra hc
        push_neg at hc
        exact h (List.flatten_eq_nil_iff.2 hc)
      obtain ⟨c', hc', rfl⟩ := List.mem_map.1 hl
      exact HasError.child _ c' hc' (hasError_of_find_errors c' hlne)
termination_by sizeOf n
decreasing_by
  simp only [Node.mk.sizeOf_spec]
  have := List.sizeOf_lt_of_mem hc'
  omega

theorem find_errors_ne_nil_of_hasError {n : Node} (h : HasError n) :
    find_errors n ≠ [] := by
  induction h with
  | here n he =>
    rw [find_errors_eq, if_pos he]
    simp
  | child n c hc hh ih =>
    rw [find_errors_eq]
    intro hcontra
    rw [List.append_eq_nil] at hcontra
    exact ih (List.flatten_eq_nil_iff.1 hcontra.2 _
      (List.mem_map_of_mem (fun x => find_errors x) hc))

/-- `find_errors` finds an error exactly when the tree has one. -/
theorem find_errors_ne_nil_iff (n : Node) : find_errors n ≠ [] ↔ HasError n :=
  ⟨hasError_of_find_errors n, find_errors_ne_nil_of_hasError⟩

/-- Decimal rendering of a number, as Python's f-string does. -/
def natChars (n : Nat) : List Char := Nat.toDigits 10 n

/-- Python `str.splitlines()` for sources whose line breaks are `\n` (the
only line break the grammar's whitespace contains): split on `\n`,
dropping the empty piece a trailing newline would produce, and `[]` for
the empty source. -/
def pySplitlines (s : List Char) : List (List Char) :=
  match s with
  | [] => []
  | _ =>
    let parts := pySplit '\n' s
    if parts.getLast? = some [] then parts.dropLast else parts

/-- One diagnostic block (lines 84-99 of the source): a header with the
1-based line and column, then — when the line exists in the source — the
offending line prefixed by two spaces and a caret under the column (the
two extra leading spaces of the caret line account for that indent). -/
def formatErrorMsg (lines : List (List Char)) (n : Node) : List Char :=
  let hdr := "Error at line ".data ++ natChars (n.row + 1) ++ ", column ".data
      ++ natChars (n.col + 1) ++ ":".data
  if n.row < lines.length then
    hdr ++ '\n' :: ' ' :: ' ' :: (lines.getD n.row [])
        ++ '\n' :: (List.replicate (n.col + 2) ' ' ++ ['^'])
  else hdr

/-- The two failure channels of the decode entry point: the `ParseError`
(in the source a `ValueError` whose text starts with `Parse error:`) and
the interpreter failures of §7's taxonomy. -/
inductive DecodeErr where
  | parse (msg : List Char)
  | interp (e : PErr)

/-- The full `ParseError` text (lines 79-100 of the source). -/
def renderParseError (src : List Char) (errs : List Node) : List Char :=
  "Parse error:\n".data ++ joinWith '\n' (errs.map (formatErrorMsg (pySplitlines src)))

/-- The decode entry point `parse`: the tree produced by the external
grammar engine is an input; collect error nodes, fail with the rendered
`ParseError` if there are any, otherwise interpret the root. -/
def parse (fuel : Nat) (lits : Lits) (structs : Structs) (src : List Char)
    (root : Node) : Except DecodeErr Value :=
  match find_errors root with
  | [] => (interpretN lits structs fuel (some root)).mapError DecodeErr.interp
  | _ :: _ => .error (.parse (renderParseError src (find_errors root)))

/-- C4: the decode entry point fails with a `ParseError` (returning no
value) exactly when the syntax tree contains at least one `ERROR` node;
the message starts with `Parse error:` and carries one diagnostic block
per error node, each with the 1-based line and column of the node's
start, the offending source line prefixed by two spaces when the line
index is in range, and a caret line with `column + 2` leading spaces
(the 1-based column plus one). -/
theorem ziggy_c4_parse_error_reporting (fuel : Nat) (lits : Lits) (structs : Structs)
    (src : List Char) (root : Node) :
    ((∃ msg, parse fuel lits structs src root = .error (.parse msg)) ↔ HasError root)
      ∧ (∀ msg, parse fuel lits structs src root = .error (.parse msg) →
          msg = "Parse error:\n".data
              ++ joinWith '\n' ((find_errors root).map (formatErrorMsg (pySplitlines src)))
            ∧ ((find_errors root).map (formatErrorMsg (pySplitlines src))).length
              = (find_errors root).length
            ∧ ∀ e ∈ find_errors root,
                formatErrorMsg (pySplitlines src) e
                  = ("Error at line ".data ++ natChars (e.row + 1) ++ ", column ".data
                      ++ natChars (e.col + 1) ++ ":".data)
                    ++ (if e.row < (pySplitlines src).length then
                          '\n' :: ' ' :: ' ' :: ((pySplitlines src).getD e.row [])
                            ++ '\n' :: (List.replicate (e.col + 2) ' ' ++ ['^'])
                        else [])) := by
  constructor
  · constructor
    · rintro ⟨msg, hm⟩
      by_contra hne
      have h0 : find_errors root = [] := by
        by_contra hfe
        exact hne (hasError_of_find_errors root hfe)
      rw [parse, h0] at hm
      cases hI : interpretN lits structs fuel (some root) with
      | ok v => rw [hI] at hm; cases hm
      | error e => rw [hI] at hm; cases hm
    · intro h
      have hne := find_errors_ne_nil_of_hasError h
      obtain ⟨e, es, hfe⟩ : ∃ e es, find_errors root = e :: es := by
        cases hh : find_errors root with
        | nil => exact absurd hh hne
        | cons e es => exact ⟨e, es, rfl⟩
      refine ⟨renderParseError src (find_errors root), ?_⟩
      rw [parse, hfe]
  · intro msg hm
    obtain ⟨e, es, hfe⟩ : ∃ e es, find_errors root = e :: es := by
      cases hh : find_errors root with
      | nil =>
        rw [parse, hh] at hm
        cases hI : interpretN lits structs fuel (some root) with
        | ok v => rw [hI] at hm; cases hm
        | error e => rw [hI] at hm; cases hm
      | cons e es => exact ⟨e, es, rfl⟩
    rw [parse, hfe] at hm
    injection hm with hm1
    injection hm1 with hm2
    refine ⟨?_, List.length_map _ _, ?_⟩
    · rw [← hm2, hfe]
      rfl
    intro e he
    rw [formatErrorMsg]
    by_cases hrow : e.row < (pySplitlines src).length
    · rw [if_pos hrow, if_pos hrow]
      simp [List.append_assoc]
    · rw [if_neg hrow, if_neg hrow, List.append_nil]

/-- Witness for C4: a one-node `ERROR` tree over the source `bad`. -/
theorem ziggy_c4_parse_error_reporting_witness :
    parse 1 [] [] ("bad".data) (Node.mk ("ERROR") none [] [] [] 0 0)
        = Except.error (DecodeErr.parse
            ("Parse error:\nError at line 1, column 1:\n  bad\n  ^".data))
      ∧ HasError (Node.mk ("ERROR") none [] [] [] 0 0) := by
  have herr : HasError (Node.mk ("ERROR") none [] [] [] 0 0) := HasError.here _ rfl
  refine ⟨?_, herr⟩
  have h := ziggy_c4_parse_error_reporting 1 [] [] ("bad".data)
    (Node.mk ("ERROR") none [] [] [] 0 0)
  obtain ⟨msg, hm⟩ := h.1.2 herr
  obtain ⟨hmsg, -, -⟩ := h.2 msg hm
  have hfe : find_errors (Node.mk ("ERROR") none [] [] [] 0 0)
      = [Node.mk ("ERROR") none [] [] [] 0 0] := by
    rw [find_errors_eq]
    rfl
  rw [hm, hmsg, hfe]
  rfl

/-! ## Dispatch lemmas for `interpretN` -/

theorem interpretN_none (lits : Lits) (structs : Structs) (fuel : Nat) :
    interpretN lits structs fuel none = .ok Value.null := by
  cases fuel <;> rfl

theorem interpretN_string_ty (lits : Lits) (structs : Structs) (fuel : Nat) (n : Node)
    (hty : n.ty = "string") :
    interpretN lits structs (fuel + 1) (some n) = (interpret_string n).map Value.str := by
  rw [interpretN.eq_def]
  dsimp only
  split <;> simp_all

theorem interpretN_tag_string_ty (lits : Lits) (structs : Structs) (fuel : Nat) (n : Node)
    (hty : n.ty = "tag_string") :
    interpretN lits structs (fuel + 1) (some n) = interpret_tag_string lits n := by
  rw [interpretN.eq_def]
  dsimp only
  split <;> simp_all

theorem interpretN_map_ty (lits : Lits) (structs : Structs) (fuel : Nat) (n : Node)
    (hty : n.ty = "map") :
    interpretN lits structs (fuel + 1) (some n)
      = interpret_map (fun nd => interpretN lits structs fuel nd) n := by
  rw [interpretN.eq_def]
  dsimp only
  split <;> simp_all

theorem interpretN_struct_ty (lits : Lits) (structs : Structs) (fuel : Nat) (n : Node)
    (hty : n.ty = "struct" ∨ n.ty = "top_level_struct") :
    interpretN lits structs (fuel + 1) (some n)
      = interpret_struct (fun nd => interpretN lits structs fuel nd) structs n := by
  rw [interpretN.eq_def]
  dsimp only
  rcases hty with hty | hty <;> [skip; skip] <;> split <;> simp_all

/-- C9: a syntax node whose type is none of the enumerated kinds makes
`interpret` fail with the `UnsupportedNodeError` (the source's
`ValueError("unsupported: ...")`) instead of returning a value. -/
theorem ziggy_c9_unsupported_node (lits : Lits) (structs : Structs) (fuel : Nat) (n : Node)
    (h : n.ty ∉ (["document", "true", "false", "null", "integer", "float", "identifier",
      "string", "quoted_string", "tag_string", "map", "array", "struct",
      "top_level_struct"] : List String)) :
    interpretN lits structs (fuel + 1) (some n) = .error (.unsupported n.ty) := by
  simp only [List.mem_cons, List.not_mem_nil, or_false, not_or] at h
  rw [interpretN.eq_def]
  dsimp only
  split <;> simp_all

/-- Witness for C9: a node of the unknown type `comment`. -/
theorem ziggy_c9_unsupported_node_witness :
    interpretN [] [] 1 (some (Node.mk ("comment") none [] [] [] 0 0))
      = .error (.unsupported "comment") :=
  ziggy_c9_unsupported_node [] [] 0 (Node.mk ("comment") none [] [] [] 0 0) (by decide)

/-! ## Quoted and multiline strings (claims C5, C6) -/

theorem dropWhile_beq_head {ch : Char} {l : List Char}
    (h : ∀ c, l.head? = some c → c ≠ ch) : l.dropWhile (· == ch) = l := by
  cases l with
  | nil => rfl
  | cons c rest =>
    rw [List.dropWhile_cons, if_neg]
    simp only [beq_iff_eq]
    exact h c rfl

/-- Modelled from the claim's words: strip exactly one leading and one
trailing `"` character. -/
def stripOneQuote (l : List Char) : List Char :=
  let l1 := if l.head? = some '"' then l.tail else l
  if l1.getLast? = some '"' then l1.dropLast else l1

/-- C5 counterexample: the quoted-string lexeme `"\""` (a string whose
content is one escaped quote, raw characters `"` `\` `"` `"`). The code's
`strip('"')` removes *both* trailing quotes, so decoding returns `\` —
not the `\"` that stripping exactly one leading and one trailing quote
would return. -/
theorem ziggy_c5_counterexample :
    interpretN [] [] 1 (some (Node.mk ("string") (some ['"', '\\', '"', '"'])
        [Node.mk ("x") none [] [] [] 0 0] [] [] 0 0))
      = .ok (.str ['\\'])
      ∧ stripOneQuote ['"', '\\', '"', '"'] = ['\\', '"']
      ∧ (['\\'] : List Char) ≠ ['\\', '"'] :=
  ⟨rfl, rfl, by decide⟩

/-- C5 (amended): a `string` node with exactly one child decodes by
stripping *all* leading and *all* trailing `"` characters from its text
(Python `strip('"')`); this coincides with stripping exactly one on each
side whenever the remainder neither starts nor ends with a quote. -/
theorem ziggy_c5_quoted_string (lits : Lits) (structs : Structs) (fuel : Nat)
    (n : Node) (t : List Char)
    (hty : n.ty = "string") (hlen : n.children.length = 1) (htxt : n.txt = some t) :
    interpretN lits structs (fuel + 1) (some n) = .ok (.str (pyStrip '"' t))
      ∧ ∀ mid : List Char, (∀ c, mid.head? = some c → c ≠ '"') →
          (∀ c, mid.getLast? = some c → c ≠ '"') →
          pyStrip '"' ('"' :: mid ++ ['"']) = mid := by
  constructor
  · rw [interpretN_string_ty lits structs fuel n hty, interpret_string, if_pos hlen,
      interpret_quoted_string.eq_def, htxt]
    rfl
  · intro mid h1 h2
    unfold pyStrip pyLstrip pyRstrip
    rw [List.cons_append, List.dropWhile_cons, if_pos (by simp)]
    cases mid with
    | nil => rfl
    | cons m0 mid' =>
      have hm0 : m0 ≠ '"' := h1 m0 rfl
      rw [List.cons_append, List.dropWhile_cons, if_neg (by simp [hm0])]
      rw [show (m0 :: (mid' ++ ['"'])).reverse = '"' :: (m0 :: mid').reverse by simp]
      rw [List.dropWhile_cons, if_pos (by simp)]
      rw [dropWhile_beq_head (fun c hc => h2 c (by
        rw [List.head?_reverse] at hc
        exact hc)), List.reverse_reverse]

/-- Witness for C5 at the plain quoted string `"hi"`. -/
theorem ziggy_c5_quoted_string_witness :
    interpretN [] [] 1 (some (Node.mk ("string") (some ['"', 'h', 'i', '"'])
        [Node.mk ("x") none [] [] [] 0 0] [] [] 0 0))
      = .ok (.str (pyStrip '"' ['"', 'h', 'i', '"'])) :=
  (ziggy_c5_quoted_string [] [] 0 (Node.mk ("string") (some ['"', 'h', 'i', '"'])
    [Node.mk ("x") none [] [] [] 0 0] [] [] 0 0) ['"', 'h', 'i', '"']
    rfl rfl rfl).1

/-- Modelled from the claim's words: strip one leading two-character
continuation marker (backslash-backslash). -/
def stripOneMarker (l : List Char) : List Char :=
  match l with
  | '\\' :: '\\' :: rest => rest
  | _ => l

/-- C6 counterexample: a multiline string whose first line's content
itself starts with a backslash (raw line text `\\\y`). The code's
`lstrip("\\\\")` removes *every* leading backslash, producing `y`; the
claim's removal of one two-character marker would keep `\y`. -/
theorem ziggy_c6_counterexample :
    interpretN [] [] 1 (some (Node.mk ("string") none
        [Node.mk ("line") (some ['\\', '\\', '\\', 'y']) [] [] [] 0 0,
         Node.mk ("line") (some ['\\', '\\', 'z']) [] [] [] 0 0]
        [Node.mk ("line") (some ['\\', '\\', '\\', 'y']) [] [] [] 0 0,
         Node.mk ("line") (some ['\\', '\\', 'z']) [] [] [] 0 0] [] 0 0))
      = .ok (.str ['y', '\n', 'z'])
      ∧ joinWith '\n' ([['\\', '\\', '\\', 'y'], ['\\', '\\', 'z']].map stripOneMarker)
        = ['\\', 'y', '\n', 'z']
      ∧ (['y', '\n', 'z'] : List Char) ≠ ['\\', 'y', '\n', 'z'] :=
  ⟨rfl, rfl, by decide⟩

theorem mapM_txt_lines (cs : List Node) (ts : List (List Char))
    (h : cs.mapM Node.txt = some ts) :
    cs.mapM (fun c => match c.txt with
      | some t => Except.ok (pyLstrip '\\' t)
      | none => Except.error PErr.assertFail)
    = Except.ok (ts.map (pyLstrip '\\')) := by
  induction cs generalizing ts with
  | nil =>
    simp only [List.mapM_nil] at h ⊢
    injection h with h
    subst h
    rfl
  | cons c cs' ih =>
    rw [List.mapM_cons] at h
    cases htc : c.txt with
    | none => rw [htc] at h; cases h
    | some t =>
      rw [htc] at h
      cases hcs : cs'.mapM Node.txt with
      | none => rw [hcs] at h; cases h
      | some ts' =>
        rw [hcs] at h
        have hts : ts = t :: ts' := by
          cases h
          rfl
        subst hts
        rw [List.mapM_cons, htc]
        dsimp only
        rw [ih ts' hcs]
        rfl

/-- C6 (amended): a `string` node with a number of children other than one
decodes as a multiline string: each line-node's text has *all* of its
leading backslashes stripped (Python `lstrip("\\\\")` treats the marker as
a character set) — which coincides with stripping the one two-character
marker whenever the line's content does not itself start with a
backslash — and the lines are joined with `\n` in order. -/
theorem ziggy_c6_multiline_string (lits : Lits) (structs : Structs) (fuel : Nat)
    (n : Node) (ts : List (List Char))
    (hty : n.ty = "string") (hlen : n.children.length ≠ 1)
    (h : n.namedChildren.mapM Node.txt = some ts) :
    interpretN lits structs (fuel + 1) (some n)
      = .ok (.str (joinWith '\n' (ts.map (pyLstrip '\\'))))
      ∧ ∀ content : List Char, (∀ c, content.head? = some c → c ≠ '\\') →
          pyLstrip '\\' ('\\' :: '\\' :: content)
            = stripOneMarker ('\\' :: '\\' :: content) := by
  constructor
  · rw [interpretN_string_ty lits structs fuel n hty, interpret_string, if_neg hlen,
      interpret_multiline_string, mapM_txt_lines n.namedChildren ts h]
    rfl
  · intro content hc
    rw [stripOneMarker]
    unfold pyLstrip
    rw [List.dropWhile_cons, if_pos (by simp), List.dropWhile_cons, if_pos (by simp),
      dropWhile_beq_head hc]

/-- Witness for C6 at the two-line multiline string `\\a` / `\\b`. -/
theorem ziggy_c6_multiline_string_witness :
    interpretN [] [] 1 (some (Node.mk ("string") none
        [Node.mk ("line") (some ['\\', '\\', 'a']) [] [] [] 0 0,
         Node.mk ("line") (some ['\\', '\\', 'b']) [] [] [] 0 0]
        [Node.mk ("line") (some ['\\', '\\', 'a']) [] [] [] 0 0,
         Node.mk ("line") (some ['\\', '\\', 'b']) [] [] [] 0 0] [] 0 0))
      = .ok (.str (joinWith '\n'
          ([['\\', '\\', 'a'], ['\\', '\\', 'b']].map (pyLstrip '\\')))) :=
  (ziggy_c6_multiline_string [] [] 0 (Node.mk ("string") none
      [Node.mk ("line") (some ['\\', '\\', 'a']) [] [] [] 0 0,
       Node.mk ("line") (some ['\\', '\\', 'b']) [] [] [] 0 0]
      [Node.mk ("line") (some ['\\', '\\', 'a']) [] [] [] 0 0,
       Node.mk ("line") (some ['\\', '\\', 'b']) [] [] [] 0 0] [] 0 0)
    [['\\', '\\', 'a'], ['\\', '\\', 'b']]
    rfl (by decide) rfl).1

/-! ## Tagged literals (claim C8) -/

/-- C8: a `tag_string` node decodes its second named child as a quoted
string; a registered converter for the tag name is applied to it and its
result returned, otherwise the decoded string is returned unchanged. -/
theorem ziggy_c8_tag_string (lits : Lits) (structs : Structs) (fuel : Nat)
    (n c0 c1 : Node) (rest : List Node) (name qt : List Char)
    (hty : n.ty = "tag_string")
    (hnc : n.namedChildren = c0 :: c1 :: rest)
    (hname : c0.txt = some name)
    (hqt : c1.txt = some qt) :
    interpretN lits structs (fuel + 1) (some n)
      = .ok (match List.lookup name lits with
          | some f => f (pyStrip '"' qt)
          | none => .str (pyStrip '"' qt)) := by
  rw [interpretN_tag_string_ty lits structs fuel n hty, interpret_tag_string.eq_def, hnc]
  dsimp only
  rw [hname]
  dsimp only
  rw [interpret_quoted_string.eq_def, hqt]
  dsimp only
  cases List.lookup name lits <;> rfl

/-- Witness for C8: the tag `date` with a registered converter that
prefixes `@`. -/
theorem ziggy_c8_tag_string_witness :
    interpretN [("date".data, fun s => Value.str ('@' :: s))] [] 1
        (some (Node.mk ("tag_string") none []
          [Node.mk ("identifier") (some "date".data) [] [] [] 0 0,
           Node.mk ("quoted_string") (some ['"', 'x', '"']) [] [] [] 0 0] [] 0 0))
      = .ok (match List.lookup "date".data [("date".data, fun s => Value.str ('@' :: s))] with
          | some f => f (pyStrip '"' ['"', 'x', '"'])
          | none => .str (pyStrip '"' ['"', 'x', '"'])) :=
  ziggy_c8_tag_string [("date".data, fun s => Value.str ('@' :: s))] [] 0
    (Node.mk ("tag_string") none []
      [Node.mk ("identifier") (some "date".data) [] [] [] 0 0,
       Node.mk ("quoted_string") (some ['"', 'x', '"']) [] [] [] 0 0] [] 0 0)
    (Node.mk ("identifier") (some "date".data) [] [] [] 0 0)
    (Node.mk ("quoted_string") (some ['"', 'x', '"']) [] [] [] 0 0)
    [] ("date".data) ['"', 'x', '"'] rfl rfl rfl rfl

/-! ## Missing-value entries decode to null (claim C10) -/

/-- A monadic fold whose every step succeeds is the pure fold. -/
theorem foldlM_ok {α β : Type} (g : α → β → α) (f : α → β → Except PErr α) :
    ∀ (l : List β), (∀ d b, b ∈ l → f d b = .ok (g d b)) →
      ∀ d0, l.foldlM f d0 = .ok (l.foldl g d0)
  | [], _, d0 => rfl
  | b :: l', h, d0 => by
    rw [List.foldlM_cons, h d0 b (by simp)]
    show l'.foldlM f (g d0 b) = _
    rw [foldlM_ok g f l' (fun d b' hb => h d b' (by simp [hb])) (g d0 b)]
    rfl

/-- The key text a map entry decodes (its quoted-string key). -/
def keyTextOf (c : Node) : List Char :=
  pyStrip '"' (((c.field "key").bind Node.txt).getD [])

/-- The key text a struct field decodes (its identifier key). -/
def identTextOf (c : Node) : List Char :=
  ((c.field "key").bind Node.txt).getD []

/-- C10 (implicit): `interpret` of an absent node is `None`, so a map
entry or struct field whose `value` sub-field is missing from the tree
silently decodes to the null value instead of raising. -/
theorem ziggy_c10_missing_value_is_null (lits : Lits) (structs : Structs) (fuel : Nat)
    (nm ns : Node)
    (hmty : nm.ty = "map")
    (hmk : ∀ c ∈ nm.namedChildren,
      (∃ kn kt, c.field "key" = some kn ∧ kn.txt = some kt) ∧ c.field "value" = none)
    (hsty : ns.ty = "struct" ∨ ns.ty = "top_level_struct")
    (hsn : ns.field "name" = none)
    (hsk : ∀ c ∈ ns.namedChildren, c.ty = "struct_field"
      ∧ (∃ kn kt, c.field "key" = some kn ∧ kn.txt = some kt) ∧ c.field "value" = none) :
    (∀ f, interpretN lits structs f none = .ok Value.null)
      ∧ interpretN lits structs (fuel + 1) (some nm)
          = .ok (.dict (nm.namedChildren.foldl
              (fun d c => pyDictInsert d (keyTextOf c) Value.null) []))
      ∧ interpretN lits structs (fuel + 1) (some ns)
          = .ok (.dict (ns.namedChildren.foldl
              (fun d c => pyDictInsert d (identTextOf c) Value.null) [])) := by
  refine ⟨interpretN_none lits structs, ?_, ?_⟩
  · rw [interpretN_map_ty lits structs fuel nm hmty, interpret_map]
    rw [foldlM_ok (fun d c => pyDictInsert d (keyTextOf c) Value.null) _ _ ?hstep]
    · rfl
    case hstep =>
      intro d c hc
      obtain ⟨⟨kn, kt, hkn, hkt⟩, hval⟩ := hmk c hc
      rw [mapStep, hkn]
      dsimp only
      rw [interpret_quoted_string.eq_def, hkt]
      dsimp only
      rw [hval, interpretN_none]
      show Except.ok (pyDictInsert d (pyStrip '"' kt) Value.null) = _
      rw [keyTextOf, hkn, Option.some_bind, hkt, Option.getD_some]
  · rw [interpretN_struct_ty lits structs fuel ns hsty, interpret_struct, structFields]
    rw [foldlM_ok (fun d c => pyDictInsert d (identTextOf c) Value.null) _ _ ?hstep2]
    · show (match ns.field "name" with
        | some nameNode => _
        | none => Except.ok (Value.dict _)) = _
      rw [hsn]
    case hstep2 =>
      intro d c hc
      obtain ⟨hts, ⟨kn, kt, hkn, hkt⟩, hval⟩ := hsk c hc
      rw [structStep, if_neg (by simp [hts]), hkn]
      dsimp only
      rw [interpret_identifier.eq_def, hkt]
      dsimp only
      rw [hval, interpretN_none]
      show Except.ok (pyDictInsert d kt Value.null) = _
      rw [identTextOf, hkn, Option.some_bind, hkt, Option.getD_some]

/-- Witness for C10 at a one-entry map and a one-field struct, both with
the `value` sub-field absent. -/
theorem ziggy_c10_missing_value_is_null_witness :
    (∀ f, interpretN [] [] f none = .ok Value.null)
      ∧ interpretN [] [] 1 (some (Node.mk ("map") none []
          [Node.mk ("pair") none [] []
            [("key", Node.mk ("quoted_string") (some ['"', 'k', '"']) [] [] [] 0 0)] 0 0]
          [] 0 0))
        = .ok (.dict ([Node.mk ("pair") none [] []
            [("key", Node.mk ("quoted_string") (some ['"', 'k', '"']) [] [] [] 0 0)] 0 0].foldl
              (fun d c => pyDictInsert d (keyTextOf c) Value.null) []))
      ∧ interpretN [] [] 1 (some (Node.mk ("struct") none []
          [Node.mk ("struct_field") none [] []
            [("key", Node.mk ("identifier") (some ['a']) [] [] [] 0 0)] 0 0]
          [] 0 0))
        = .ok (.dict ([Node.mk ("struct_field") none [] []
            [("key", Node.mk ("identifier") (some ['a']) [] [] [] 0 0)] 0 0].foldl
              (fun d c => pyDictInsert d (identTextOf c) Value.null) [])) :=
  ziggy_c10_missing_value_is_null [] [] 0
    (Node.mk ("map") none []
      [Node.mk ("pair") none [] []
        [("key", Node.mk ("quoted_string") (some ['"', 'k', '"']) [] [] [] 0 0)] 0 0] [] 0 0)
    (Node.mk ("struct") none []
      [Node.mk ("struct_field") none [] []
        [("key", Node.mk ("identifier") (some ['a']) [] [] [] 0 0)] 0 0] [] 0 0)
    rfl
    (fun c hc => by
      have hc' := List.mem_singleton.1 hc
      subst hc'
      exact ⟨⟨_, ['"', 'k', '"'], rfl, rfl⟩, rfl⟩)
    (Or.inl rfl)
    rfl
    (fun c hc => by
      have hc' := List.mem_singleton.1 hc
      subst hc'
      exact ⟨rfl, ⟨_, ['a'], rfl, rfl⟩, rfl⟩)

/-! ## Maps (claim C7) -/

/-- The key/value pair a single map child denotes: its `key` field as a
quoted string and its `value` field interpreted recursively. -/
def mapEntry (interp : Option Node → Except PErr Value) (c : Node) :
    Except PErr (List Char × Value) :=
  match c.field "key" with
  | none => .error .assertFail
  | some keyNode => do
    let k ← interpret_quoted_string keyNode
    let v ← interp (c.field "value")
    return (k, v)

theorem mapStep_eq (interp : Option Node → Except PErr Value)
    (d : List (List Char × Value)) (c : Node) :
    mapStep interp d c
      = (mapEntry interp c).map (fun kv => pyDictInsert d kv.1 kv.2) := by
  rw [mapStep, mapEntry]
  cases hk : c.field "key" with
  | none => rfl
  | some kn =>
    dsimp only
    cases hq : interpret_quoted_string kn with
    | error e => rfl
    | ok k =>
      cases hv : interp (c.field "value") with
      | error e => rfl
      | ok v => rfl

/-- Fold fusion: a map node whose per-child entries all succeed decodes to
their dict fold. -/
theorem foldlM_mapStep_of_mapM (interp : Option Node → Except PErr Value) :
    ∀ (cs : List Node) (kvs : List (List Char × Value)) (d0 : List (List Char × Value)),
      cs.mapM (mapEntry interp) = .ok kvs →
      cs.foldlM (mapStep interp) d0
        = .ok (kvs.foldl (fun d kv => pyDictInsert d kv.1 kv.2) d0) := by
  intro cs
  induction cs with
  | nil =>
    intro kvs d0 h
    cases h
    rfl
  | cons c cs' ih =>
    intro kvs d0 h
    rw [List.mapM_cons] at h
    cases he : mapEntry interp c with
    | error e =>
      rw [he] at h
      cases h
    | ok kv =>
      rw [he] at h
      cases hm : cs'.mapM (mapEntry interp) with
      | error e =>
        rw [hm] at h
        cases h
      | ok kvs' =>
        rw [hm] at h
        have hkvs : kvs = kv :: kvs' := by cases h; rfl
        subst hkvs
        rw [List.foldlM_cons, mapStep_eq, he]
        show cs'.foldlM (mapStep interp) (pyDictInsert d0 kv.1 kv.2) = _
        rw [ih kvs' (pyDictInsert d0 kv.1 kv.2) hm]
        rfl

/-- `lookup` through the replace branch of a Python dict assignment. -/
theorem lookup_map_replace (d : List (List Char × Value)) (k : List Char) (v : Value)
    (k' : List Char) :
    List.lookup k' (d.map (fun p => if p.1 == k then (k, v) else p))
      = if k' == k then (List.lookup k d).map (fun _ => v) else List.lookup k' d := by
  induction d with
  | nil => cases hk : (k' == k) <;> simp [hk]
  | cons p d' ih =>
    obtain ⟨pk, pv⟩ := p
    rw [List.map_cons]
    by_cases hpk : (pk == k) = true
    case pos =>
      have hpk' : pk = k := eq_of_beq hpk
      subst hpk'
      rw [if_pos hpk]
      by_cases hk' : (k' == pk) = true
      case pos =>
        have hke : k' = pk := eq_of_beq hk'
        subst hke
        simp [List.lookup_cons, hk']
      case neg =>
        have hne : (k' == pk) = false := by simpa using hk'
        simp only [List.lookup_cons, hne]
        simpa [hne] using ih
    case neg =>
      have hpk0 : (pk == k) = false := by simpa using hpk
      rw [if_neg (by simp [hpk0])]
      have hkp : (k == pk) = false := by
        apply beq_eq_false_iff_ne.2
        intro e
        simp [e] at hpk0
      by_cases hk' : (k' == pk) = true
      case pos =>
        have hke : k' = pk := eq_of_beq hk'
        subst hke
        simp only [List.lookup_cons, hk']
        rw [if_neg]
        intro hc
        have : k' = k := eq_of_beq hc
        subst this
        simp at hpk0
      case neg =>
        have hne : (k' == pk) = false := by simpa using hk'
        simp only [List.lookup_cons, hne, hkp]
        exact ih

theorem any_beq_iff_lookup_isSome (d : List (List Char × Value)) (k : List Char) :
    d.any (fun p => p.1 == k) = true ↔ (List.lookup k d).isSome := by
  induction d with
  | nil => simp
  | cons p d' ih =>
    obtain ⟨pk, pv⟩ := p
    by_cases h : pk = k
    · subst h
      simp [List.lookup_cons]
    · have h1 : (pk == k) = false := beq_eq_false_iff_ne.2 h
      have h2 : (k == pk) = false := beq_eq_false_iff_ne.2 (Ne.symm h)
      simp [List.lookup_cons, h1, h2, ih]

theorem lookup_append_singleton (d : List (List Char × Value)) (k : List Char) (v : Value)
    (k' : List Char) (h : d.any (fun p => p.1 == k) = false) :
    List.lookup k' (d ++ [(k, v)]) = if k' == k then some v else List.lookup k' d := by
  induction d with
  | nil => cases hk' : (k' == k) <;> simp [List.lookup_cons, hk']
  | cons p d' ih =>
    obtain ⟨pk, pv⟩ := p
    rw [List.any_cons] at h
    have h1 : (pk == k) = false ∧ d'.any (fun p => p.1 == k) = false := by
      constructor
      · cases hpk : (pk == k) with
        | false => rfl
        | true => rw [hpk] at h; simp at h
      · cases hd : d'.any (fun p => p.1 == k) with
        | false => rfl
        | true => rw [hd] at h; simp at h
    rw [List.cons_append]
    by_cases hk'p : (k' == pk) = true
    · have hke : k' = pk := eq_of_beq hk'p
      subst hke
      simp only [List.lookup_cons, hk'p]
      rw [if_neg]
      intro hc
      rw [eq_of_beq hc] at h1
      rw [show (k == k) = true from beq_iff_eq.2 rfl] at h1
      cases h1.1
    · have hk'pf : (k' == pk) = false := by simpa using hk'p
      simp only [List.lookup_cons, hk'pf]
      exact ih h1.2

/-- Python dict lookup after an assignment. -/
theorem lookup_pyDictInsert (d : List (List Char × Value)) (k : List Char) (v : Value)
    (k' : List Char) :
    List.lookup k' (pyDictInsert d k v) = if k' == k then some v else List.lookup k' d := by
  rw [pyDictInsert]
  by_cases hany : (d.any (fun p => p.1 == k)) = true
  · rw [if_pos hany, lookup_map_replace]
    by_cases hk' : (k' == k) = true
    · rw [if_pos hk', if_pos hk']
      obtain ⟨w, hw⟩ := Option.isSome_iff_exists.1 ((any_beq_iff_lookup_isSome d k).1 hany)
      rw [hw]
      rfl
    · rw [if_neg hk', if_neg hk']
  · have hany' : d.any (fun p => p.1 == k) = false := by
      cases hb : d.any (fun p => p.1 == k) with
      | false => rfl
      | true => exact absurd hb hany
    rw [if_neg hany]
    exact lookup_append_singleton d k v k' hany'

/-- A Python dict built by folding entries in order looks up to the *last*
entry with the key. -/
theorem lookup_foldl_insert (kvs : List (List Char × Value)) (k : List Char) :
    List.lookup k (kvs.foldl (fun d kv => pyDictInsert d kv.1 kv.2) [])
      = ((kvs.filter (fun kv => kv.1 == k)).getLast?).map Prod.snd := by
  induction kvs using List.reverseRecOn with
  | nil => rfl
  | append_singleton kvs x ih =>
    rw [List.foldl_append, List.foldl_cons, List.foldl_nil, lookup_pyDictInsert,
      List.filter_append]
    by_cases hx : (x.1 == k) = true
    · have hsym : (k == x.1) = true := beq_iff_eq.2 (eq_of_beq hx).symm
      rw [if_pos hsym]
      simp [List.filter_cons, hx, List.getLast?_concat]
    · have hxf : (x.1 == k) = false := by simpa using hx
      have hsym : (k == x.1) = false := by
        apply beq_eq_false_iff_ne.2
        intro e
        rw [e, beq_self_eq_true] at hxf
        cases hxf
      rw [if_neg (by simp [hsym])]
      simp [List.filter_cons, hxf, ih]

/-- Assignment keeps existing keys in place and appends a fresh key. -/
theorem map_fst_pyDictInsert (d : List (List Char × Value)) (k : List Char) (v : Value) :
    (pyDictInsert d k v).map Prod.fst
      = if (d.map Prod.fst).contains k then d.map Prod.fst else d.map Prod.fst ++ [k] := by
  rw [pyDictInsert]
  have hc : d.any (fun p => p.1 == k) = (d.map Prod.fst).contains k := by
    induction d with
    | nil => rfl
    | cons p d' ih =>
      obtain ⟨pk, pv⟩ := p
      by_cases h : pk = k
      · subst h
        simp [List.contains_cons]
      · have h1 : (pk == k) = false := beq_eq_false_iff_ne.2 h
        have h2 : (k == pk) = false := beq_eq_false_iff_ne.2 (Ne.symm h)
        simp [List.contains_cons, h1, h2, ih]
  rw [hc]
  by_cases hin : ((d.map Prod.fst).contains k) = true
  · rw [if_pos hin, if_pos hin, List.map_map]
    apply List.map_congr_left
    intro p hp
    by_cases hpk : (p.1 == k) = true
    · simp only [Function.comp_apply, if_pos hpk]
      exact (eq_of_beq hpk).symm
    · simp only [Function.comp_apply, if_neg hpk]
  · rw [if_neg hin, if_neg hin, List.map_append]
    rfl

/-- The key order of the built dict: first occurrence order. -/
theorem map_fst_foldl_insert :
    ∀ (kvs : List (List Char × Value)) (d0 : List (List Char × Value)),
      (kvs.foldl (fun d kv => pyDictInsert d kv.1 kv.2) d0).map Prod.fst
        = kvs.foldl (fun ks kv => if ks.contains kv.1 then ks else ks ++ [kv.1])
            (d0.map Prod.fst)
  | [], d0 => rfl
  | kv :: kvs', d0 => by
    rw [List.foldl_cons, List.foldl_cons, map_fst_foldl_insert kvs' _,
      map_fst_pyDictInsert]

/-- C7: a map node decodes each named child's `key` field as a quoted
string and its `value` field recursively, accumulating the entries into an
ordered dict in source order; a later entry with an equal key silently
overwrites the earlier one (lookup yields the *last* occurrence, no
duplicate-key error is raised) and keys keep first-occurrence order. -/
theorem ziggy_c7_map_decoding (lits : Lits) (structs : Structs) (fuel : Nat)
    (n : Node) (kvs : List (List Char × Value))
    (hty : n.ty = "map")
    (h : n.namedChildren.mapM
      (mapEntry (fun nd => interpretN lits structs fuel nd)) = .ok kvs) :
    interpretN lits structs (fuel + 1) (some n)
        = .ok (.dict (kvs.foldl (fun d kv => pyDictInsert d kv.1 kv.2) []))
      ∧ (∀ k, List.lookup k (kvs.foldl (fun d kv => pyDictInsert d kv.1 kv.2) [])
          = ((kvs.filter (fun kv => kv.1 == k)).getLast?).map Prod.snd)
      ∧ (kvs.foldl (fun d kv => pyDictInsert d kv.1 kv.2) []).map Prod.fst
          = kvs.foldl (fun ks kv => if ks.contains kv.1 then ks else ks ++ [kv.1]) [] := by
  refine ⟨?_, fun k => lookup_foldl_insert kvs k, map_fst_foldl_insert kvs []⟩
  rw [interpretN_map_ty lits structs fuel n hty, interpret_map,
    foldlM_mapStep_of_mapM _ n.namedChildren kvs [] h]
  rfl

/-- Witness for C7 at a two-entry map whose entries share the key `k`:
the decoded dict holds the later value. -/
theorem ziggy_c7_map_decoding_witness :
    interpretN [] [] 2 (some (Node.mk ("map") none []
        [Node.mk ("pair") none [] []
          [("key", Node.mk ("quoted_string") (some ['"', 'k', '"']) [] [] [] 0 0),
           ("value", Node.mk ("integer") (some ['1']) [] [] [] 0 0)] 0 0,
         Node.mk ("pair") none [] []
          [("key", Node.mk ("quoted_string") (some ['"', 'k', '"']) [] [] [] 0 0),
           ("value", Node.mk ("integer") (some ['2']) [] [] [] 0 0)] 0 0]
        [] 0 0))
      = .ok (.dict (([(['k'], Value.int 1), (['k'], Value.int 2)]).foldl
          (fun d kv => pyDictInsert d kv.1 kv.2) [])) :=
  (ziggy_c7_map_decoding [] [] 1
    (Node.mk ("map") none []
      [Node.mk ("pair") none [] []
        [("key", Node.mk ("quoted_string") (some ['"', 'k', '"']) [] [] [] 0 0),
         ("value", Node.mk ("integer") (some ['1']) [] [] [] 0 0)] 0 0,
       Node.mk ("pair") none [] []
        [("key", Node.mk ("quoted_string") (some ['"', 'k', '"']) [] [] [] 0 0),
         ("value", Node.mk ("integer") (some ['2']) [] [] [] 0 0)] 0 0]
      [] 0 0)
    [(['k'], Value.int 1), (['k'], Value.int 2)] rfl rfl).1

/-! ## Structs (claim C3) -/

/-- The key/value pair a single `struct_field` child denotes: its `key`
field as an identifier and its `value` field interpreted recursively. -/
def structEntry (interp : Option Node → Except PErr Value) (c : Node) :
    Except PErr (List Char × Value) :=
  match c.field "key" with
  | none => .error .assertFail
  | some keyNode => do
    let k ← interpret_identifier keyNode
    let v ← interp (c.field "value")
    return (k, v)

theorem structStep_eq (interp : Option Node → Except PErr Value)
    (d : List (List Char × Value)) (c : Node) (h : c.ty = "struct_field") :
    structStep interp d c
      = (structEntry interp c).map (fun kv => pyDictInsert d kv.1 kv.2) := by
  rw [structStep, if_neg (by simp [h]), structEntry]
  cases hk : c.field "key" with
  | none => rfl
  | some kn =>
    dsimp only
    cases hq : interpret_identifier kn with
    | error e => rfl
    | ok k =>
      cases hv : interp (c.field "value") with
      | error e => rfl
      | ok v => rfl

theorem structStep_skip (interp : Option Node → Except PErr Value)
    (d : List (List Char × Value)) (c : Node) (h : c.ty ≠ "struct_field") :
    structStep interp d c = .ok d := by
  rw [structStep, if_pos (by simp [h])]
  rfl

/-- Fold fusion for the struct-field loop: only `struct_field` children
contribute, in order. -/
theorem foldlM_structStep_of_mapM (interp : Option Node → Except PErr Value) :
    ∀ (cs : List Node) (kvs : List (List Char × Value)) (d0 : List (List Char × Value)),
      (cs.filter (fun c => c.ty == "struct_field")).mapM (structEntry interp) = .ok kvs →
      cs.foldlM (structStep interp) d0
        = .ok (kvs.foldl (fun d kv => pyDictInsert d kv.1 kv.2) d0) := by
  intro cs
  induction cs with
  | nil =>
    intro kvs d0 h
    cases h
    rfl
  | cons c cs' ih =>
    intro kvs d0 h
    by_cases hty : c.ty = "struct_field"
    · rw [List.filter_cons_of_pos (by simp [hty]), List.mapM_cons] at h
      cases he : structEntry interp c with
      | error e =>
        rw [he] at h
        cases h
      | ok kv =>
        rw [he] at h
        cases hm : (cs'.filter (fun c => c.ty == "struct_field")).mapM (structEntry interp) with
        | error e =>
          rw [hm] at h
          cases h
        | ok kvs' =>
          rw [hm] at h
          have hkvs : kvs = kv :: kvs' := by cases h; rfl
          subst hkvs
          rw [List.foldlM_cons, structStep_eq interp d0 c hty, he]
          show cs'.foldlM (structStep interp) (pyDictInsert d0 kv.1 kv.2) = _
          rw [ih kvs' (pyDictInsert d0 kv.1 kv.2) hm]
          rfl
    · rw [List.filter_cons_of_neg (by simp [hty])] at h
      rw [List.foldlM_cons, structStep_skip interp d0 c hty]
      show cs'.foldlM (structStep interp) d0 = _
      exact ih kvs d0 h

/-- C3 counterexample: two named structs, `Foo { .a = 1 }` and
`Bar { .a = 1 }`, decoded with an empty `structs` registry, produce the
*same* plain dict — the name is discarded, so the result is not a value
"carrying the name" as the claim states. -/
theorem ziggy_c3_counterexample :
    interpretN [] [] 2 (some (Node.mk ("struct") none []
        [Node.mk ("struct_field") none [] []
          [("key", Node.mk ("identifier") (some ['a']) [] [] [] 0 0),
           ("value", Node.mk ("integer") (some ['1']) [] [] [] 0 0)] 0 0]
        [("name", Node.mk ("identifier") (some "Foo".data) [] [] [] 0 0)] 0 0))
      = .ok (.dict [(['a'], Value.int 1)])
      ∧ interpretN [] [] 2 (some (Node.mk ("struct") none []
          [Node.mk ("struct_field") none [] []
            [("key", Node.mk ("identifier") (some ['a']) [] [] [] 0 0),
             ("value", Node.mk ("integer") (some ['1']) [] [] [] 0 0)] 0 0]
          [("name", Node.mk ("identifier") (some "Bar".data) [] [] [] 0 0)] 0 0))
        = .ok (.dict [(['a'], Value.int 1)])
      ∧ ("Foo".data : List Char) ≠ "Bar".data :=
  ⟨rfl, rfl, by decide⟩

/-- C3 (amended): a struct node collects its `struct_field` children into
an ordered field dict via their `key`/`value` sub-fields; when the node
carries a `name` whose decoded text is registered in `structs`, the
registered constructor is invoked on the field dict (keyword arguments)
and its result returned instead of a mapping; otherwise the plain field
dict is returned — in the named-but-unregistered case the name is
discarded, not attached to the result. -/
theorem ziggy_c3_struct_decoding (lits : Lits) (structs : Structs) (fuel : Nat)
    (n : Node) (kvs : List (List Char × Value))
    (hty : n.ty = "struct" ∨ n.ty = "top_level_struct")
    (h : (n.namedChildren.filter (fun c => c.ty == "struct_field")).mapM
      (structEntry (fun nd => interpretN lits structs fuel nd)) = .ok kvs)
    (hname : ∀ nn, n.field "name" = some nn → nn.txt.isSome) :
    interpretN lits structs (fuel + 1) (some n)
      = .ok (match (n.field "name").bind Node.txt with
          | some name =>
            match List.lookup name structs with
            | some ctor => ctor (kvs.foldl (fun d kv => pyDictInsert d kv.1 kv.2) [])
            | none => Value.dict (kvs.foldl (fun d kv => pyDictInsert d kv.1 kv.2) [])
          | none => Value.dict (kvs.foldl (fun d kv => pyDictInsert d kv.1 kv.2) [])) := by
  rw [interpretN_struct_ty lits structs fuel n hty, interpret_struct, structFields,
    foldlM_structStep_of_mapM _ n.namedChildren kvs [] h]
  cases hnn : n.field "name" with
  | none =>
    rw [Option.none_bind]
    rfl
  | some nn =>
    obtain ⟨name, hsome⟩ := Option.isSome_iff_exists.1 (hname nn hnn)
    rw [Option.some_bind, hsome]
    show (match nn.txt with
      | none => Except.error PErr.assertFail
      | some name =>
        match List.lookup name structs with
        | some ctor => pure (ctor (List.foldl
            (fun d (kv : List Char × Value) => pyDictInsert d kv.1 kv.2) [] kvs))
        | none => pure (Value.dict (List.foldl
            (fun d (kv : List Char × Value) => pyDictInsert d kv.1 kv.2) [] kvs))) = _
    rw [hsome]
    dsimp only
    cases List.lookup name structs <;> rfl

/-- Witness for C3: `Book { .title = "X" }` with a registered `Book`
constructor that wraps its fields in a list. -/
theorem ziggy_c3_struct_decoding_witness :
    interpretN [] ([("Book".data, fun fields => Value.list (fields.map (fun kv => Value.str kv.1)))] : Structs) 2
        (some (Node.mk ("struct") none []
          [Node.mk ("struct_field") none [] []
            [("key", Node.mk ("identifier") (some "title".data) [] [] [] 0 0),
             ("value", Node.mk ("quoted_string") (some ['"', 'X', '"']) [] [] [] 0 0)] 0 0]
          [("name", Node.mk ("identifier") (some "Book".data) [] [] [] 0 0)] 0 0))
      = .ok (match (((Node.mk ("struct") none []
          [Node.mk ("struct_field") none [] []
            [("key", Node.mk ("identifier") (some "title".data) [] [] [] 0 0),
             ("value", Node.mk ("quoted_string") (some ['"', 'X', '"']) [] [] [] 0 0)] 0 0]
          [("name", Node.mk ("identifier") (some "Book".data) [] [] [] 0 0)] 0 0)).field "name").bind Node.txt with
          | some name =>
            match List.lookup name
                ([("Book".data, fun fields => Value.list (fields.map (fun kv => Value.str kv.1)))] : Structs) with
            | some ctor => ctor (([("title".data, Value.str ['X'])]).foldl
                (fun d kv => pyDictInsert d kv.1 kv.2) [])
            | none => Value.dict (([("title".data, Value.str ['X'])]).foldl
                (fun d kv => pyDictInsert d kv.1 kv.2) [])
          | none => Value.dict (([("title".data, Value.str ['X'])]).foldl
              (fun d kv => pyDictInsert d kv.1 kv.2) [])) :=
  ziggy_c3_struct_decoding []
    ([("Book".data, fun fields => Value.list (fields.map (fun kv => Value.str kv.1)))] : Structs) 1
    (Node.mk ("struct") none []
      [Node.mk ("struct_field") none [] []
        [("key", Node.mk ("identifier") (some "title".data) [] [] [] 0 0),
         ("value", Node.mk ("quoted_string") (some ['"', 'X', '"']) [] [] [] 0 0)] 0 0]
      [("name", Node.mk ("identifier") (some "Book".data) [] [] [] 0 0)] 0 0)
    [("title".data, Value.str ['X'])]
    (Or.inl rfl) rfl
    (fun nn hnn => by
      injection hnn with hnn'
      subst hnn'
      rfl)

end ZiggyPy
